import Mathlib

/-!
# partkit/cli — verification of the parser/dispatcher engine

Shallow embedding of the partkit command-line parsing library
(`src/parser/parser.ts`, `src/parser/flag.ts`, `src/parser/option.ts`,
`src/parser/type-parser.ts`, `src/parser/command.ts`, `src/parser/errors.ts`,
builtin `help`/`version` commands) together with theorems about the token
scanner, registration-time conflict detection, dispatch and error recovery.

Conventions of the embedding:
* JS `undefined` is `Option.none`; a `TypeParser` maps an optional raw string
  to an optional typed `Value`.
* JS objects used as string-keyed records are association lists
  (`List (String × α)`); `Map.get` is first-match lookup (`lookupKey`),
  `Map.set`/property assignment is `setKey` (replace in place or append).
* `alias`/`short` fields of definitions (`string | string[]` in TS, coerced
  via `coerceArray` at every use) are already-coerced `List String`.
-/

namespace Partkit

/-! ## Typed values and type parsers (`type-parser.ts`) -/

/-- The universe of typed option/argument values produced by the library's
type parsers: strings, booleans and (comma-split) lists. -/
inductive Value where
  | vStr : String → Value
  | vBool : Bool → Value
  | vList : List Value → Value
deriving Repr

mutual

def Value.decEq : (a b : Value) → Decidable (a = b)
  | .vStr a, .vStr b =>
      if h : a = b then .isTrue (by rw [h]) else .isFalse (by intro hh; injection hh; contradiction)
  | .vBool a, .vBool b =>
      if h : a = b then .isTrue (by rw [h]) else .isFalse (by intro hh; injection hh; contradiction)
  | .vList a, .vList b =>
      match Value.decEqList a b with
      | .isTrue h => .isTrue (by rw [h])
      | .isFalse h => .isFalse (by intro hh; injection hh; contradiction)
  | .vStr _, .vBool _ => .isFalse (by intro hh; exact Value.noConfusion hh)
  | .vStr _, .vList _ => .isFalse (by intro hh; exact Value.noConfusion hh)
  | .vBool _, .vStr _ => .isFalse (by intro hh; exact Value.noConfusion hh)
  | .vBool _, .vList _ => .isFalse (by intro hh; exact Value.noConfusion hh)
  | .vList _, .vStr _ => .isFalse (by intro hh; exact Value.noConfusion hh)
  | .vList _, .vBool _ => .isFalse (by intro hh; exact Value.noConfusion hh)

def Value.decEqList : (a b : List Value) → Decidable (a = b)
  | [], [] => .isTrue rfl
  | a :: as, b :: bs =>
      match Value.decEq a b, Value.decEqList as bs with
      | .isTrue h1, .isTrue h2 => .isTrue (by rw [h1, h2])
      | .isFalse h1, _ => .isFalse (by intro hh; injection hh; contradiction)
      | _, .isFalse h2 => .isFalse (by intro hh; injection hh; contradiction)
  | [], _ :: _ => .isFalse (by intro hh; exact List.noConfusion hh)
  | _ :: _, [] => .isFalse (by intro hh; exact List.noConfusion hh)

end

instance : DecidableEq Value := Value.decEq

/-- `TypeParserFunction<T>`: an optional raw string to an optional value.
`none` is the absent sentinel (TS `undefined`). -/
abbrev TypeParser := Option String → Option Value

/-- `isEmpty`: `value === undefined || value === ''`. -/
def isEmpty : Option String → Bool
  | none => true
  | some s => s = ""

/-- The `STRING` type parser: `(value) => isEmpty(value) ? undefined : value`. -/
def STRING : TypeParser := fun value =>
  if isEmpty value then none else value.map Value.vStr

/-- The `BOOLEAN` type parser:
`(value) => (value === undefined || value === 'false') ? false : true`. -/
def BOOLEAN : TypeParser := fun value =>
  if value = none ∨ value = some "false" then some (Value.vBool false)
  else some (Value.vBool true)

/-- JS `value.split(',')` (single-character separator): split the character
list at every comma; a trailing or leading comma yields an empty piece, and
the empty string yields the single-element list `[""]`. -/
def splitCommaAux : List Char → List Char → List String
  | [], acc => [String.mk acc.reverse]
  | c :: rest, acc =>
      if c = ',' then String.mk acc.reverse :: splitCommaAux rest []
      else splitCommaAux rest (c :: acc)

def splitComma (s : String) : List String := splitCommaAux s.data []

/-- The `ARRAY(parser)` type parser: split on commas, convert each piece with
the element parser, drop pieces that convert to `undefined`. -/
def ARRAY (parser : TypeParser) : TypeParser := fun value =>
  if isEmpty value then none
  else match value with
    | some s =>
        some (Value.vList ((splitComma s).filterMap (fun val => parser (some val))))
    | none => none

/-! ## Flag grammar (`flag.ts`)

The regular expressions are embedded character-wise:
`LONG_FLAG_REGEXP = /^--(\D[^\s]*)/`, `SHORT_FLAG_REGEXP = /^-(\D)/`,
`NEGATED_FLAG_REGEXP = /^--no-(\D[^\s]*)/`. A `test` of each anchored pattern
only constrains a prefix of the string (`[^\s]*` may match the empty string).
-/

def LONG_FLAG_PREFIX : String := "--"

def SHORT_FLAG_PREFIX : String := "-"

def NEGATED_FLAG_PREFIX : String := "--no-"

/-- JS `\d` character class. -/
def isDigitChar (c : Char) : Bool := '0' ≤ c ∧ c ≤ '9'

/-- JS `\s` character class (the members relevant to this code base). -/
def isJsSpace (c : Char) : Bool :=
  c = ' ' ∨ c = '\t' ∨ c = '\n' ∨ c = '\r' ∨ c = '\x0b' ∨ c = '\x0c' ∨ c = ' '

/-- `LONG_FLAG_REGEXP.test`: the string starts with `--` followed by a
non-digit character. -/
def longFlagTest : List Char → Bool
  | '-' :: '-' :: c :: _ => ¬ isDigitChar c
  | _ => false

/-- `SHORT_FLAG_REGEXP.test`: the string starts with `-` followed by a
non-digit character. -/
def shortFlagTest : List Char → Bool
  | '-' :: c :: _ => ¬ isDigitChar c
  | _ => false

/-- `NEGATED_FLAG_REGEXP.test`: the string starts with `--no-` followed by a
non-digit character. -/
def negatedFlagTest : List Char → Bool
  | '-' :: '-' :: 'n' :: 'o' :: '-' :: c :: _ => ¬ isDigitChar c
  | _ => false

/-- `isLongFlag` from `flag.ts`. -/
def isLongFlag (value : String) : Bool := longFlagTest value.data

/-- `isShortFlag` from `flag.ts`. -/
def isShortFlag (value : String) : Bool := shortFlagTest value.data

/-- `isNegatedFlag` from `flag.ts`. -/
def isNegatedFlag (value : String) : Bool := negatedFlagTest value.data

/-- `isFlag` from `flag.ts`: long or short. -/
def isFlag (value : String) : Bool := isLongFlag value || isShortFlag value

/-- `flag.replace(LONG_FLAG_REGEXP, NEGATED_FLAG_PREFIX + '$1')` as used by
`registerOption` to derive the auto-generated negated form of a long flag.
If the regexp does not match, `String.replace` returns the string unchanged;
otherwise the match `--<capture>` is replaced by `--no-<capture>`, where the
capture is one non-digit character followed by the maximal run of non-space
characters. -/
def negateFlag (s : String) : String :=
  match s.data with
  | '-' :: '-' :: c :: rest =>
      if isDigitChar c then s
      else
        String.mk
          ((NEGATED_FLAG_PREFIX.data ++ (c :: rest.takeWhile (fun ch => ¬ isJsSpace ch)))
            ++ rest.dropWhile (fun ch => ¬ isJsSpace ch))
  | _ => s

/-! ## Association-list primitives

JS `Map.get`/record indexing is first-match lookup; `Map.set`/property
assignment replaces an existing key in place or appends a new one.
-/

def lookupKey {α : Type} : List (String × α) → String → Option α
  | [], _ => none
  | (k, v) :: rest, key => if k = key then some v else lookupKey rest key

def setKey {α : Type} : List (String × α) → String → α → List (String × α)
  | [], key, v => [(key, v)]
  | (k, w) :: rest, key, v =>
      if k = key then (k, v) :: rest else (k, w) :: setKey rest key v

/-! ## Schema model (`option.ts`, `argument.ts`, `command.ts`)

Handlers perform I/O; they are modelled as opaque numeric identifiers, and
`run` records which handler is invoked on which parser (see `Event`).
-/

/-- `OptionDefinition` (without the documentation-only fields).  `dflt` is the
TS `default` field. -/
structure OptionDef where
  parse : TypeParser
  dflt : Option Value := none
  aliases : List String := []
  short : List String := []
  required : Bool := false
  hidden : Bool := false
  hiddenName : Bool := false
  noNegation : Bool := false

/-- `ArgumentDefinition`. -/
structure ArgDef where
  parse : TypeParser
  dflt : Option Value := none
  required : Bool := false

/-- A registered `Option` (`{ ...definition, name }`). -/
structure RegOption extends OptionDef where
  name : String

/-- `SharedCommandDefinition`: handler, alias/short match names, `asFlag`, and
the optional nested shared-command map (`commands`). The schema-level `name`
field is overwritten with the registration key by `registerCommand` and is
never read, so it is omitted. -/
inductive SharedDef where
  | mk (handler : Nat) (aliases : List String) (short : List String) (asFlag : Bool)
       (commands : Option (List (String × SharedDef)))

def SharedDef.handler : SharedDef → Nat
  | .mk h _ _ _ _ => h

def SharedDef.aliases : SharedDef → List String
  | .mk _ a _ _ _ => a

def SharedDef.short : SharedDef → List String
  | .mk _ _ s _ _ => s

def SharedDef.asFlag : SharedDef → Bool
  | .mk _ _ _ f _ => f

def SharedDef.commands : SharedDef → Option (List (String × SharedDef))
  | .mk _ _ _ _ c => c

/-- `IsolatedCommandDefinition`: its own options/arguments schema and a
command map whose entries may be `none` (TS `null`, disabling a builtin). -/
structure IsolatedDef where
  name : String
  handler : Nat
  aliases : List String := []
  short : List String := []
  asFlag : Bool := false
  options : List (String × OptionDef) := []
  args : List ArgDef := []
  commands : List (String × Option SharedDef) := []

/-- `CommandType`. -/
inductive CmdType where
  | isolated
  | shared
deriving DecidableEq, Repr

/-- A registered `Command` (`{ ...definition, name }`): the runtime copy held
in `_commands` and `_commandLookup`.  `nested` is the (shallow-copied
reference to the) definition's `commands` map; for isolated commands that
field is consulted nowhere in `parse` (only a previously matched *shared*
command can be the parent in the `SHARED`-state check), so it is stored as
`none`. -/
structure Command where
  name : String
  ctype : CmdType
  handler : Nat
  aliases : List String
  short : List String
  asFlag : Bool
  nested : Option (List (String × SharedDef))

/-- Reference (`===`) comparison between a schema-level nested command
definition and a registered command, as performed by
`(parentCommand.commands)?.[command.name] !== command` in `parse`.
`registerCommand` always stores a fresh shallow copy (`{ ...definition,
name }`) in the lookup tables, and the parser never inserts such a copy back
into any schema `commands` map, so a registered command object is never
reference-identical to a schema definition object: JS `===` between them is
always false. -/
def isSameObjectAsRegistered (_d : SharedDef) (_c : Command) : Bool := false

/-! ## Errors (`errors.ts`)

Error payloads carry the *name* of the colliding definition (the TS errors
embed the full definition via `inspect`; the name identifies it). -/

inductive RegError where
  | duplicateOption (key : String) (conflictName : String)
  | duplicateCommand (key : String) (conflictName : String)
  | duplicateParser (key : String) (conflictName : String)
  | conflictingOption (flag : String) (conflictName : String)
  | conflictingCommand (flag : String) (conflictName : String)
deriving DecidableEq, Repr

/-- `ParserError`s raised during a scan.  `internal` models a failing TS
non-null assertion / out-of-table indexed access; it is unreachable for
parsers produced by registration (the relevant invariants are established by
construction). -/
inductive ParseErr where
  | invalidCommand (command : String) (parent : Option String)
  | invalidOption (opt : String) (command : String)
  | internal
deriving DecidableEq, Repr

/-- The message of a `ParserError` (the text logged by `run`'s recovery). -/
def parseErrMessage : ParseErr → String
  | .invalidCommand c (some parent) =>
      "Invalid command. '" ++ c ++ "' is not a valid sub-command of '" ++ parent ++ "'."
  | .invalidCommand c none =>
      "Invalid command. '" ++ c ++ "' is not a valid command."
  | .invalidOption o cmd =>
      "Invalid option. '" ++ o ++ "' is not a valid option of command '" ++ cmd ++ "'."
  | .internal => "internal assertion failed"

/-! ## Registration & conflict detection (`parser.ts`, constructor side) -/

/-- The mutable registration tables of a `CliParser` instance. -/
structure RegState where
  options : List (String × RegOption) := []
  cmds : List (String × Command) := []
  cmdLookup : List (String × Command) := []
  optLookup : List (String × RegOption) := []
  argDefs : List ArgDef := []

/-- The full flag-token set of an option, in the order `registerOption`
inserts it: prefixed long aliases and (unless `hiddenName`) the long name,
followed by their auto-generated negated forms (unless `noNegation`),
followed by the prefixed short forms. -/
def optionFlagTokens (name : String) (d : OptionDef) : List String :=
  let longFlags0 := d.aliases
  let longFlags1 := if !d.hiddenName then longFlags0 ++ [name] else longFlags0
  let longFlags2 := longFlags1.map (fun flag => LONG_FLAG_PREFIX ++ flag)
  let shortFlags := d.short.map (fun flag => SHORT_FLAG_PREFIX ++ flag)
  let longFlags3 :=
    if !d.noNegation then longFlags2 ++ longFlags2.map negateFlag else longFlags2
  longFlags3 ++ shortFlags

/-- The `forEach` insertion loop of `registerOption`: each flag is checked
against the option-flag table (duplicate) and the command-token table
(conflict) before being inserted. -/
def insertOptionFlags (option : RegOption) : RegState → List String → Except RegError RegState
  | st, [] => .ok st
  | st, flag :: rest =>
      match lookupKey st.optLookup flag with
      | some duplicate => .error (.duplicateOption flag duplicate.name)
      | none =>
          match lookupKey st.cmdLookup flag with
          | some conflict => .error (.conflictingOption flag conflict.name)
          | none =>
              insertOptionFlags option
                { st with optLookup := st.optLookup ++ [(flag, option)] } rest

/-- `registerOption`. -/
def registerOption (st : RegState) (name : String) (definition : OptionDef) :
    Except RegError RegState :=
  let option : RegOption := { toOptionDef := definition, name := name }
  match lookupKey st.options name with
  | some existing => .error (.duplicateOption name existing.name)
  | none =>
      let st := { st with options := st.options ++ [(name, option)] }
      if option.hidden then .ok st
      else insertOptionFlags option st (optionFlagTokens name definition)

/-- `registerOptions`. -/
def registerOptions (st : RegState) (options : List (String × OptionDef)) :
    Except RegError RegState :=
  options.foldlM (fun st p => registerOption st p.1 p.2) st

/-- A command definition handed to `registerCommand`: either a shared
definition (from the `commands` map or the builtins) or an isolated one
(from `nest`). -/
inductive CmdDefn where
  | sharedD : SharedDef → CmdDefn
  | isolatedD : IsolatedDef → CmdDefn

/-- `{ ...definition, name }` for a command. -/
def CmdDefn.toCommand (name : String) : CmdDefn → Command
  | .sharedD d =>
      { name := name, ctype := .shared, handler := d.handler, aliases := d.aliases,
        short := d.short, asFlag := d.asFlag, nested := d.commands }
  | .isolatedD d =>
      { name := name, ctype := .isolated, handler := d.handler, aliases := d.aliases,
        short := d.short, asFlag := d.asFlag, nested := none }

/-- The match-token set of a command, in the order `registerCommand` inserts
it: aliases then name (prefixed with `--` when `asFlag`), then short names
(prefixed with `-` when `asFlag`). -/
def commandTokens (name : String) (c : Command) : List String :=
  let longFlags0 := c.aliases ++ [name]
  let shortFlags0 := c.short
  if c.asFlag then
    longFlags0.map (fun flag => LONG_FLAG_PREFIX ++ flag)
      ++ shortFlags0.map (fun flag => SHORT_FLAG_PREFIX ++ flag)
  else longFlags0 ++ shortFlags0

/-- The `forEach` insertion loop of `registerCommand`. -/
def insertCommandFlags (command : Command) : RegState → List String → Except RegError RegState
  | st, [] => .ok st
  | st, flag :: rest =>
      match lookupKey st.cmdLookup flag with
      | some duplicate => .error (.duplicateCommand flag duplicate.name)
      | none =>
          match lookupKey st.optLookup flag with
          | some conflict => .error (.conflictingCommand flag conflict.name)
          | none =>
              insertCommandFlags command
                { st with cmdLookup := st.cmdLookup ++ [(flag, command)] } rest

/-- `registerCommand`. -/
def registerCommand (st : RegState) (name : String) (defn : CmdDefn) :
    Except RegError RegState :=
  let command := defn.toCommand name
  match lookupKey st.cmds name with
  | some existing => .error (.duplicateCommand name existing.name)
  | none =>
      let st := { st with cmds := st.cmds ++ [(name, command)] }
      insertCommandFlags command st (commandTokens name command)

/-- `registerCommands`: `null` values (disabled builtins) are skipped. -/
def registerCommands (st : RegState) (commands : List (String × Option SharedDef)) :
    Except RegError RegState :=
  commands.foldlM
    (fun st p =>
      match p.2 with
      | some d => registerCommand st p.1 (.sharedD d)
      | none => .ok st)
    st

/-! ## Builtin commands (`commands/help`, `commands/version`) -/

def HELP_COMMAND_NAME : String := "help"

def VERSION_COMMAND_NAME : String := "version"

/-- Opaque identifier for the `HELP` handler. -/
def HELP_HANDLER : Nat := 1000

/-- Opaque identifier for the `VERSION` handler. -/
def VERSION_HANDLER : Nat := 1001

/-- `HELP_COMMAND`: shared, short `'h'`, matched as a flag. -/
def HELP_COMMAND : SharedDef := .mk HELP_HANDLER [] ["h"] true none

/-- `VERSION_COMMAND`: shared, short `'v'`, matched as a flag. -/
def VERSION_COMMAND : SharedDef := .mk VERSION_HANDLER [] ["v"] true none

/-- The object spread `{ ...BUILTIN_COMMANDS, ...commands }`: the builtin
keys `help` and `version` come first (their values replaced by the user's if
the user declares the same key, including `null`), followed by the remaining
user keys in order. -/
def mergeBuiltins (user : List (String × Option SharedDef)) :
    List (String × Option SharedDef) :=
  [(HELP_COMMAND_NAME, (lookupKey user HELP_COMMAND_NAME).getD (some HELP_COMMAND)),
   (VERSION_COMMAND_NAME, (lookupKey user VERSION_COMMAND_NAME).getD (some VERSION_COMMAND))]
    ++ user.filter (fun p => p.1 ≠ HELP_COMMAND_NAME ∧ p.1 ≠ VERSION_COMMAND_NAME)

/-! ## Parser instances -/

/-- A `CliParser` instance: its definition, registration tables and owned
child parsers (`_parsers`). -/
inductive ParserInst where
  | mk (defn : IsolatedDef) (reg : RegState) (parsers : List (String × ParserInst))

def ParserInst.defn : ParserInst → IsolatedDef
  | .mk d _ _ => d

def ParserInst.reg : ParserInst → RegState
  | .mk _ r _ => r

def ParserInst.parsers : ParserInst → List (String × ParserInst)
  | .mk _ _ p => p

/-- The `CliParser` constructor: register arguments, then options, then
`{ ...BUILTIN_COMMANDS, ...commands }`. -/
def buildParser (defn : IsolatedDef) : Except RegError ParserInst := do
  let st : RegState := { argDefs := defn.args }
  let st ← registerOptions st defn.options
  let st ← registerCommands st (mergeBuiltins defn.commands)
  return .mk defn st []

/-- `nest`: register the child's definition as an isolated command, then
register the child parser instance itself. -/
def nest (p : ParserInst) (child : ParserInst) : Except RegError ParserInst := do
  let st ← registerCommand p.reg child.defn.name (.isolatedD child.defn)
  match lookupKey p.parsers child.defn.name with
  | some existing => .error (.duplicateParser child.defn.name existing.defn.name)
  | none => return .mk p.defn st (p.parsers ++ [(child.defn.name, child)])

/-! ## The scanner (`parse`) -/

/-- `CliParserState`. -/
inductive CliParserState where
  | INITIAL
  | COMMAND
  | SHARED
  | OPTION
  | DONE
deriving DecidableEq, Repr

/-- One entry of the scan's positional-argument array: the declared
definition's parse result if a definition exists at that ordinal, otherwise
the raw token. -/
inductive ArgEntry where
  | parsed : Option Value → ArgEntry
  | raw : String → ArgEntry
deriving DecidableEq, Repr

/-- The loop-local scan accumulator at normal loop exit. -/
structure ScanAcc where
  state : CliParserState
  args : List ArgEntry
  options : List (String × Option Value)
  command : Option (String × List String)
deriving DecidableEq, Repr

/-- A `ParserError` thrown mid-scan, together with the value of the mutable
`this.state` field at the moment of the throw. -/
structure ScanFail where
  err : ParseErr
  state : CliParserState
deriving DecidableEq, Repr

/-- The `SHARED`-state sub-command validity check:
`(parentCommand.commands as CommandDefinitionList)?.[command.name] !== command`
throws `INVALID_COMMAND(command.name, parentCommand.name)`. The two
`internal` branches model the TS non-null assertion `commandMatch!` and the
indexed access `this._commands[...]`; both are unreachable in a scan (the
`SHARED` state implies a previously matched, registered command). -/
def sharedCheck (reg : RegState) (cm : Option (String × List String)) (command : Command) :
    Except ParseErr Unit :=
  match cm with
  | none => .error .internal
  | some cmv =>
      match lookupKey reg.cmds cmv.1 with
      | none => .error .internal
      | some parentCommand =>
          let entry := parentCommand.nested.bind (fun m => lookupKey m command.name)
          if (match entry with
              | some d => isSameObjectAsRegistered d command
              | none => false)
          then .ok ()
          else .error (.invalidCommand command.name (some parentCommand.name))

/-- The command-scanning block of one loop iteration (entered when the state
is `COMMAND` or `SHARED`): look the current token up in the command-token
table; on a hit, validate (in `SHARED` state), record the match with the
residual token slice, and move to `SHARED` (shared command) or `DONE`
(isolated command); on a miss, move to `OPTION` so the same token is
re-evaluated by the option block. -/
def commandPhase (reg : RegState) (state : CliParserState) (curr : String)
    (rest : List String) (cm : Option (String × List String)) :
    Except ParseErr (CliParserState × Option (String × List String)) :=
  match lookupKey reg.cmdLookup curr with
  | some command =>
      match (if state = .SHARED then sharedCheck reg cm command else .ok ()) with
      | .error e => .error e
      | .ok _ =>
          let cm := some (command.name, rest)
          if command.ctype = .shared then .ok (.SHARED, cm) else .ok (.DONE, cm)
  | none => .ok (.OPTION, cm)

/-- The option block of one loop iteration: a non-flag token becomes the
next positional argument; a flag token is resolved in the option-flag table
(`INVALID_OPTION` on a miss), fed the absent sentinel if it is a negated
flag and otherwise the next token (empty string if the next token is itself
a flag or missing). The returned `Bool` is whether the loop skips an extra
position (`i += !nextFlag ? 1 : 0`). -/
def optionStep (reg : RegState) (defnName : String) (curr : String) (next? : Option String)
    (args : List ArgEntry) (options : List (String × Option Value)) :
    Except ParseErr (List ArgEntry × List (String × Option Value) × Bool) :=
  let currFlag := isFlag curr
  let nextFlag := isFlag (next?.getD "")
  if !currFlag then
    let entry :=
      match reg.argDefs.get? args.length with
      | some argument => ArgEntry.parsed (argument.parse (some curr))
      | none => ArgEntry.raw curr
    .ok (args ++ [entry], options, false)
  else
    match lookupKey reg.optLookup curr with
    | none => .error (.invalidOption curr defnName)
    | some option =>
        let value : Option String :=
          if isNegatedFlag curr then none
          else if !nextFlag then some (next?.getD "") else some ""
        .ok (args, setKey options option.name (option.parse value), !nextFlag)

/-- The scan loop of `parse`, one call per loop index over the token array.
The extra one-position advance after consuming a value token
(`i += !nextFlag ? 1 : 0`) is modelled by the leading `skipNext` flag: when
it is set, the call consumes its token without examining it (the TS loop
never evaluates that token as `curr`). -/
def parseLoop (reg : RegState) (defnName : String) :
    Bool → CliParserState → List String → List ArgEntry →
    List (String × Option Value) → Option (String × List String) →
    Except ScanFail ScanAcc
  | _, state, [], args, options, cm => .ok ⟨state, args, options, cm⟩
  | true, state, _ :: rest, args, options, cm =>
      parseLoop reg defnName false state rest args options cm
  | false, state, curr :: rest, args, options, cm =>
      match (if state = .COMMAND ∨ state = .SHARED
             then commandPhase reg state curr rest cm
             else .ok (state, cm)) with
      | .error e => .error ⟨e, state⟩
      | .ok (state', cm') =>
          if state' = .OPTION then
            match optionStep reg defnName curr rest.head? args options with
            | .error e => .error ⟨e, state'⟩
            | .ok (args', options', skip) =>
                parseLoop reg defnName skip .OPTION rest args' options' cm'
          else parseLoop reg defnName false state' rest args options cm'

/-- `CliParserResult`, with the merged config materialised. -/
structure ScanResult where
  command : Option (String × List String)
  args : List ArgEntry
  options : List (String × Option Value)
  config : List (String × Option Value)
deriving DecidableEq, Repr

/-- `createDefaultConfig`: every registered option name mapped to its
declared default. -/
def createDefaultConfig (reg : RegState) : List (String × Option Value) :=
  reg.options.map (fun p => (p.1, p.2.dflt))

/-- The config spread `{ ...this.createDefaultConfig(), ...options }`. -/
def overrideAll (base : List (String × Option Value)) :
    List (String × Option Value) → List (String × Option Value)
  | [] => base
  | (k, v) :: rest => overrideAll (setKey base k v) rest

/-- `createParserResult`. -/
def createParserResult (reg : RegState) (args : List ArgEntry)
    (options : List (String × Option Value)) (command : Option (String × List String)) :
    ScanResult :=
  { command := command, args := args, options := options,
    config := overrideAll (createDefaultConfig reg) options }

/-- `parse`: run the scan loop from the `COMMAND` state and finalize the
result (after which `this.state` is `DONE`). -/
def parse (p : ParserInst) (argv : List String) : Except ScanFail ScanResult :=
  match parseLoop p.reg p.defn.name false .COMMAND argv [] [] none with
  | .error f => .error f
  | .ok acc => .ok (createParserResult p.reg acc.args acc.options acc.command)

/-! ## Dispatch and error recovery (`run`) -/

/-- The observable actions of `run`: writing an error description to the
diagnostic stream, and invoking a handler on a parser (identified by its
definition name) whose current result is the attached `ScanResult` (`none`
for the help invocation during error recovery, where the scan produced no
result). -/
inductive Event where
  | emitError (msg : String)
  | invoke (handler : Nat) (parserName : String) (result : Option ScanResult)
deriving DecidableEq, Repr

/-- What `run` can throw: a `ParserError`, the message-less `SilentError`
marker, an internal (non-`ParserError`) crash, or exhaustion of the
recursion fuel of the model. -/
inductive RunError where
  | parserErr (e : ParseErr)
  | silent
  | internal
  | outOfFuel
deriving DecidableEq, Repr

/-- The outcome of one `run` invocation: emitted events, normal completion
(`none`) or a thrown error, and the final value of this instance's `state`
field. -/
structure RunOut where
  events : List Event
  error : Option RunError
  state : CliParserState
deriving DecidableEq, Repr

/-- The `catch` block of `run` for a `ParserError`: with a registered `help`
command the parser marks itself `DONE`, logs the error, invokes the help
handler and throws `SilentError`; without one the error is rethrown (leaving
the state as it was at the error, `stateAtError`). -/
def recover (p : ParserInst) (priorEvents : List Event) (e : ParseErr)
    (stateAtError : CliParserState) : RunOut :=
  match lookupKey p.reg.cmds HELP_COMMAND_NAME with
  | none => { events := priorEvents, error := some (.parserErr e), state := stateAtError }
  | some help =>
      { events := priorEvents
          ++ [.emitError (parseErrMessage e), .invoke help.handler p.defn.name none],
        error := some .silent,
        state := .DONE }

/-- `run`: parse, then dispatch — a matched shared command's handler runs on
this same parser, a matched isolated command's pre-built child parser runs
recursively on the residual tokens, and with no match this parser's own
handler runs. A `ParserError` thrown by the scan or the dispatch is handed
to `recover`. The `fuel` bounds the recursion depth of the model; the
`internal` outcomes model the non-null indexed accesses `this._commands[...]`
and `this._parsers[...]`, unreachable for parsers built by `buildParser`/`nest`. -/
def run : Nat → ParserInst → List String → RunOut
  | 0, _, _ => { events := [], error := some .outOfFuel, state := .INITIAL }
  | fuel + 1, p, argv =>
      match parse p argv with
      | .error f => recover p [] f.err f.state
      | .ok res =>
          match res.command with
          | none =>
              { events := [.invoke p.defn.handler p.defn.name (some res)],
                error := none, state := .DONE }
          | some (cname, cargv) =>
              match lookupKey p.reg.cmds cname with
              | none => { events := [], error := some .internal, state := .DONE }
              | some command =>
                  if command.ctype = .shared then
                    { events := [.invoke command.handler p.defn.name (some res)],
                      error := none, state := .DONE }
                  else
                    match lookupKey p.parsers cname with
                    | none => { events := [], error := some .internal, state := .DONE }
                    | some child =>
                        let out := run fuel child cargv
                        match out.error with
                        | some (.parserErr e) => recover p out.events e .DONE
                        | r => { events := out.events, error := r, state := .DONE }

/-! ## Concrete fixtures: the §8 scenario schema

Root `cli`: option `foo` (string, default `"bar"`), shared command `sub`,
nested isolated command `echo` with option `loud` (boolean, default false).
-/

def CLI_HANDLER : Nat := 10

def SUB_HANDLER : Nat := 11

def ECHO_HANDLER : Nat := 12

def fooOpt : OptionDef := { parse := STRING, dflt := some (.vStr "bar") }

def loudOpt : OptionDef := { parse := BOOLEAN, dflt := some (.vBool false) }

def subCmd : SharedDef := .mk SUB_HANDLER [] [] false none

def echoDefn : IsolatedDef :=
  { name := "echo", handler := ECHO_HANDLER, options := [("loud", loudOpt)] }

def cliDefn : IsolatedDef :=
  { name := "cli", handler := CLI_HANDLER, options := [("foo", fooOpt)],
    commands := [("sub", some subCmd)] }

/-- Construction of the §8 parser tree: build the root and the `echo` child,
then `nest` the child. -/
def cliParserE : Except RegError ParserInst := do
  let root ← buildParser cliDefn
  let echo ← buildParser echoDefn
  nest root echo

/-- Fallback instance for reading a construction result (never used when the
construction succeeds, which the theorems assert). -/
def emptyParser : ParserInst := .mk { name := "", handler := 0 } {} []

def getParser : Except RegError ParserInst → ParserInst
  | .ok p => p
  | .error _ => emptyParser

def cliParser : ParserInst := getParser cliParserE

/-- Whether an `Except` computation succeeded. -/
def isOkE {ε α : Type} : Except ε α → Bool
  | .ok _ => true
  | .error _ => false

/-! ## Fixtures for the shared/nested sub-command scan (claim C4) -/

def NESTED_HANDLER : Nat := 21

def PARENT_HANDLER : Nat := 20

/-- A shared command `nested`, declared both as a nested child of `sub4` and
as a top-level command (so that its token is in the command lookup table). -/
def nestedCmd : SharedDef := .mk NESTED_HANDLER [] [] false none

/-- A shared command declaring `nested` as its nested sub-command. -/
def parentCmd : SharedDef := .mk PARENT_HANDLER [] [] false (some [("nested", nestedCmd)])

def c4Defn : IsolatedDef :=
  { name := "root4", handler := 9,
    commands := [("sub4", some parentCmd), ("nested", some nestedCmd)] }

def c4Parser : ParserInst := getParser (buildParser c4Defn)

/-! ## Association-list lemmas -/

theorem lookupKey_setKey_self {α : Type} (l : List (String × α)) (k : String) (v : α) :
    lookupKey (setKey l k v) k = some v := by
  induction l with
  | nil => simp [setKey, lookupKey]
  | cons p rest ih =>
      obtain ⟨k', w⟩ := p
      by_cases h : k' = k
      · simp [setKey, h, lookupKey]
      · simp [setKey, h, lookupKey, ih]

theorem lookupKey_setKey_ne {α : Type} (l : List (String × α)) (k key : String) (v : α)
    (h : k ≠ key) : lookupKey (setKey l k v) key = lookupKey l key := by
  induction l with
  | nil => simp [setKey, lookupKey, h]
  | cons p rest ih =>
      obtain ⟨k', w⟩ := p
      by_cases h' : k' = k
      · subst h'
        simp [setKey, lookupKey, h]
      · simp [setKey, h', lookupKey, ih]

theorem lookupKey_map_value {α β : Type} (l : List (String × α)) (f : α → β) (k : String) :
    lookupKey (l.map (fun p => (p.1, f p.2))) k = (lookupKey l k).map f := by
  induction l with
  | nil => simp [lookupKey]
  | cons p rest ih =>
      obtain ⟨k', w⟩ := p
      by_cases h : k' = k
      · simp [lookupKey, h]
      · simp [lookupKey, h, ih]

/-- The keys of an association list are pairwise distinct. -/
def keysDistinct {α : Type} (l : List (String × α)) : Prop :=
  l.Pairwise (fun p q => p.1 ≠ q.1)

/-- An entry of `setKey l k v` is an entry of `l` or the entry `(k, v)`. -/
theorem mem_setKey {α : Type} {l : List (String × α)} {k : String} {v : α}
    {p : String × α} (h : p ∈ setKey l k v) : p ∈ l ∨ p = (k, v) := by
  induction l with
  | nil => simpa [setKey] using h
  | cons q rest ih =>
      obtain ⟨k', w⟩ := q
      by_cases h' : k' = k
      · subst h'
        simp [setKey] at h
        rcases h with h | h
        · exact Or.inr (by simp [h])
        · exact Or.inl (by simp [h])
      · simp [setKey, h'] at h
        rcases h with h | h
        · exact Or.inl (by simp [h])
        · rcases ih h with h2 | h2
          · exact Or.inl (by simp [h2])
          · exact Or.inr h2

/-- `setKey` preserves distinctness of keys. -/
theorem keysDistinct_setKey {α : Type} {l : List (String × α)} (k : String) (v : α)
    (h : keysDistinct l) : keysDistinct (setKey l k v) := by
  induction l with
  | nil => simp [setKey, keysDistinct]
  | cons q rest ih =>
      obtain ⟨k', w⟩ := q
      rw [keysDistinct, List.pairwise_cons] at h
      by_cases h' : k' = k
      · subst h'
        have hset : setKey ((k', w) :: rest) k' v = (k', v) :: rest := by
          rw [setKey]; simp
        rw [hset, keysDistinct, List.pairwise_cons]
        exact ⟨h.1, h.2⟩
      · rw [setKey]
        simp only [if_neg h']
        rw [keysDistinct, List.pairwise_cons]
        refine ⟨?_, ih h.2⟩
        intro q hq
        rcases mem_setKey hq with h2 | h2
        · exact h.1 q h2
        · rw [h2]
          exact h'

/-- Looking up a key that none of the overriding entries mention falls
through to the base list. -/
theorem lookupKey_overrideAll_of_not_mem (opts : List (String × Option Value)) :
    ∀ (base : List (String × Option Value)) (n : String),
    (∀ v', (n, v') ∉ opts) →
    lookupKey (overrideAll base opts) n = lookupKey base n := by
  induction opts with
  | nil => intro base n _; simp [overrideAll]
  | cons p rest ih =>
      intro base n h
      obtain ⟨k, v⟩ := p
      have hk : k ≠ n := by
        intro he
        exact h v (by simp [he])
      rw [overrideAll, ih (setKey base k v) n (fun v' hv' => h v' (List.mem_cons_of_mem _ hv')),
        lookupKey_setKey_ne base k n v hk]

/-- With distinct keys, an entry present among the overriding entries wins
in the merged config. -/
theorem lookupKey_overrideAll_of_mem (opts : List (String × Option Value)) :
    ∀ (base : List (String × Option Value)) (n : String) (v : Option Value),
    keysDistinct opts →
    lookupKey opts n = some v →
    lookupKey (overrideAll base opts) n = some v := by
  induction opts with
  | nil => intro base n v _ h; simp [lookupKey] at h
  | cons p rest ih =>
      intro base n v hnd h
      obtain ⟨k, w⟩ := p
      rw [keysDistinct, List.pairwise_cons] at hnd
      by_cases hk : k = n
      · subst hk
        simp [lookupKey] at h
        subst h
        rw [overrideAll, lookupKey_overrideAll_of_not_mem rest (setKey base k w) k ?_,
          lookupKey_setKey_self]
        intro v' hv'
        exact hnd.1 (k, v') hv' rfl
      · rw [lookupKey] at h
        simp [hk] at h
        rw [overrideAll]
        exact ih (setKey base k w) n v hnd.2 h

/-! ## Claim theorems -/

/-- C9: the list converter `ARRAY(STRING)` maps `"a,b,c"` to `["a","b","c"]`,
maps the empty string and the absent sentinel to absent (not the empty
list), and maps `"a,,b"` to `["a","b"]`: each comma-separated piece goes
through the element converter and pieces converting to absent are dropped. -/
theorem c9_array_string_converter :
    ARRAY STRING (some "a,b,c") = some (.vList [.vStr "a", .vStr "b", .vStr "c"])
    ∧ ARRAY STRING (some "") = none
    ∧ ARRAY STRING none = none
    ∧ ARRAY STRING (some "a,,b") = some (.vList [.vStr "a", .vStr "b"]) :=
  ⟨rfl, rfl, rfl, rfl⟩

/-- C8: every string of the shape `--` + non-digit + anything is a long
flag; every length-2 string of the shape `-` + non-digit is a short flag;
`-1` and `-42` satisfy none of `isFlag`/`isLongFlag`/`isShortFlag`; and
`--no-foo` is both a long flag and a negated flag. -/
theorem c8_token_classification :
    (∀ (s : String) (c : Char) (t : List Char),
      s.data = '-' :: '-' :: c :: t → isDigitChar c = false → isLongFlag s = true)
    ∧ (∀ (s : String) (c : Char),
      s.data = ['-', c] → isDigitChar c = false → isShortFlag s = true)
    ∧ isFlag "-1" = false ∧ isLongFlag "-1" = false ∧ isShortFlag "-1" = false
    ∧ isFlag "-42" = false ∧ isLongFlag "-42" = false ∧ isShortFlag "-42" = false
    ∧ isLongFlag "--no-foo" = true ∧ isNegatedFlag "--no-foo" = true := by
  refine ⟨?_, ?_, ?_, ?_, ?_, ?_, ?_, ?_, ?_, ?_⟩
  · intro s c t hs hc
    simp [isLongFlag, hs, longFlagTest, hc]
  · intro s c hs hc
    simp [isShortFlag, hs, shortFlagTest, hc]
  all_goals decide

/-- C8 witness: the quantified clauses of `c8_token_classification`
instantiated at `"--foo"` and `"-f"`. -/
theorem c8_token_classification_witness :
    isLongFlag "--foo" = true ∧ isShortFlag "-f" = true :=
  ⟨c8_token_classification.1 "--foo" 'f' ['o', 'o'] rfl rfl,
   c8_token_classification.2.1 "-f" 'f' rfl rfl⟩

/-- C2: on the §8 schema, `run ["sub"]` invokes `sub`'s handler on the same
(root) parser whose scan just completed, with `config().foo = "bar"`; and
`run ["echo", "--loud"]` recursively invokes the pre-built `echo` child
parser on the residual slice `["--loud"]`, so `echo`'s own handler runs on
the `echo` parser with `config().loud = true`, and neither its `config` nor
its `options` contains the parent-only key `foo`. -/
theorem c2_shared_isolated_dispatch :
    isOkE cliParserE = true
    ∧ run 2 cliParser ["sub"] =
        { events := [.invoke SUB_HANDLER "cli"
            (some { command := some ("sub", []), args := [], options := [],
                    config := [("foo", some (.vStr "bar"))] })],
          error := none, state := .DONE }
    ∧ run 2 cliParser ["echo", "--loud"] =
        { events := [.invoke ECHO_HANDLER "echo"
            (some { command := none, args := [],
                    options := [("loud", some (.vBool true))],
                    config := [("loud", some (.vBool true))] })],
          error := none, state := .DONE }
    ∧ (match run 2 cliParser ["echo", "--loud"] with
       | { events := [.invoke _ _ (some res)], error := none, state := _ } =>
          lookupKey res.config "foo" = none ∧ lookupKey res.options "foo" = none
          ∧ lookupKey res.config "loud" = some (some (.vBool true))
       | _ => False) :=
  ⟨rfl, rfl, rfl, rfl, rfl, rfl⟩

/-- C3 (the code, evaluated at the failing input): scanning
`["--no-foo", "x"]` feeds the absent sentinel to `foo`'s converter but
*also* performs the extra one-position advance (`i += !nextFlag ? 1 : 0` is
independent of negation), so the following non-flag token `"x"` is silently
dropped: the resulting positional-argument list is empty. By contrast the
same token alone, `["x"]`, is collected as a positional argument. -/
theorem c3_negated_flag_consumes_next_token :
    parse cliParser ["--no-foo", "x"] =
      .ok { command := none, args := [], options := [("foo", none)],
            config := [("foo", none)] }
    ∧ parse cliParser ["x"] =
      .ok { command := none, args := [.raw "x"], options := [],
            config := [("foo", some (.vStr "bar"))] } :=
  ⟨rfl, rfl⟩

/-- C4 (the code, evaluated at the failing input): `sub4` declares `nested`
in its nested-command map, yet the input `["sub4", "nested"]` is rejected
with the "invalid sub-command" error naming `sub4` — the `SHARED`-state
check compares the schema's nested definition against the freshly copied
registered command with `!==`, which can never succeed. -/
theorem c4_declared_child_still_rejected :
    isOkE (buildParser c4Defn) = true
    ∧ parse c4Parser ["sub4", "nested"] =
        .error { err := .invalidCommand "nested" (some "sub4"), state := .SHARED } :=
  ⟨rfl, rfl⟩

/-- C7 counterexample: on the §8 schema (`foo` is a string option with
default `"bar"`), the scan of `["--foo", ""]` is *not* the scan of `[]`:
supplying the flag with an empty value stores the converter's absent result
under `foo`, which overrides the default in the merged config, while
omitting the flag leaves the default. -/
theorem c7_counterexample_empty_value_observable :
    (parse cliParser ["--foo", ""]).map (fun r => lookupKey r.config "foo")
        = .ok (some none)
    ∧ (parse cliParser []).map (fun r => lookupKey r.config "foo")
        = .ok (some (some (.vStr "bar")))
    ∧ parse cliParser ["--foo", ""] ≠ parse cliParser [] := by
  refine ⟨rfl, rfl, ?_⟩
  intro h
  have h2 := congrArg (Except.map (fun r => lookupKey r.config "foo")) h
  have e1 : (parse cliParser ["--foo", ""]).map (fun r => lookupKey r.config "foo")
      = .ok (some none) := rfl
  have e2 : (parse cliParser []).map (fun r => lookupKey r.config "foo")
      = .ok (some (some (.vStr "bar"))) := rfl
  rw [e1, e2] at h2
  simp at h2

/-- A string option with no declared default (for the C7 amended witness). -/
def nmOpt : OptionDef := { parse := STRING }

def c7Defn : IsolatedDef := { name := "c7", handler := 30, options := [("nm", nmOpt)] }

def c7Parser : ParserInst := getParser (buildParser c7Defn)

/-- C7 amended: for a registered string-converted option `n`, supplying the
flag with an explicit empty-string value stores the converter's absent
result: `config()[n]` is `undefined`, exactly as for the bare flag
`['--n']`; this coincides with the scan of the empty input only when the
option's declared default is itself absent. -/
theorem c7_amended_empty_value_is_bare_flag (P : ParserInst) (n : String) (o : RegOption)
    (hcmd : lookupKey P.reg.cmdLookup ("--" ++ n) = none)
    (hopt : lookupKey P.reg.optLookup ("--" ++ n) = some o)
    (hname : o.name = n) (hparse : o.parse = STRING)
    (hflag : isFlag ("--" ++ n) = true) :
    (parse P ["--" ++ n, ""]).map (fun r => lookupKey r.config n) = .ok (some none)
    ∧ (parse P ["--" ++ n, ""]).map (fun r => lookupKey r.config n)
        = (parse P ["--" ++ n]).map (fun r => lookupKey r.config n)
    ∧ (∀ d, lookupKey P.reg.options n = some d → d.dflt = none →
        (parse P ["--" ++ n, ""]).map (fun r => lookupKey r.config n)
          = (parse P []).map (fun r => lookupKey r.config n)) := by
  subst hname
  have hpv : ∀ v : Option String, (v = none ∨ v = some "") → o.parse v = none := by
    intro v hv
    rw [hparse]
    rcases hv with h | h <;> simp [h, STRING, isEmpty]
  have hp1 : o.parse none = none := hpv none (Or.inl rfl)
  have hp2 : o.parse (some "") = none := hpv (some "") (Or.inr rfl)
  have hff : isFlag "" = false := rfl
  have hval2 : parse P ["--" ++ o.name, ""] =
      .ok (createParserResult P.reg [] [(o.name, none)] none) := by
    cases hne : isNegatedFlag ("--" ++ o.name) <;>
      simp [parse, parseLoop, commandPhase, optionStep, hcmd, hflag, hopt, hne, hff,
        hp1, hp2, setKey]
  have hval1 : parse P ["--" ++ o.name] =
      .ok (createParserResult P.reg [] [(o.name, none)] none) := by
    cases hne : isNegatedFlag ("--" ++ o.name) <;>
      simp [parse, parseLoop, commandPhase, optionStep, hcmd, hflag, hopt, hne, hff,
        hp1, hp2, setKey]
  have hcfg : lookupKey (createParserResult P.reg [] [(o.name, none)] none).config o.name
      = some none := by
    rw [createParserResult]
    exact lookupKey_overrideAll_of_mem _ _ _ _ (by simp [keysDistinct]) (by simp [lookupKey])
  refine ⟨?_, ?_, ?_⟩
  · rw [hval2]
    simp [Except.map, hcfg]
  · rw [hval2, hval1]
  · intro d hd hdflt
    have hempty : parse P [] = .ok (createParserResult P.reg [] [] none) := by
      rw [parse, parseLoop]
    have hc0 : lookupKey (createParserResult P.reg [] [] none).config o.name = some none := by
      have hcd : (createParserResult P.reg [] [] none).config = createDefaultConfig P.reg := rfl
      rw [hcd, createDefaultConfig, lookupKey_map_value P.reg.options (fun x => x.dflt) o.name,
        hd]
      simp [hdflt]
    rw [hval2, hempty]
    simp [Except.map, hcfg, hc0]

/-- C7 amended witness: `c7_amended_empty_value_is_bare_flag` applied to the
concrete parser `c7Parser` (string option `nm` with no default). -/
theorem c7_amended_witness :
    (parse c7Parser ["--nm", ""]).map (fun r => lookupKey r.config "nm") = .ok (some none)
    ∧ (parse c7Parser ["--nm", ""]).map (fun r => lookupKey r.config "nm")
        = (parse c7Parser ["--nm"]).map (fun r => lookupKey r.config "nm")
    ∧ (parse c7Parser ["--nm", ""]).map (fun r => lookupKey r.config "nm")
        = (parse c7Parser []).map (fun r => lookupKey r.config "nm") := by
  have h := c7_amended_empty_value_is_bare_flag c7Parser "nm"
    { toOptionDef := nmOpt, name := "nm" } rfl rfl rfl rfl rfl
  exact ⟨h.1, h.2.1, h.2.2 { toOptionDef := nmOpt, name := "nm" } rfl rfl⟩

/-! ## C6: parse-error recovery in `run` -/

/-- C6: if the scan raises a parse error, or the recursive dispatch of an
isolated command propagates one, then: with a `help` command registered on
this parser, `run` marks the parser `DONE`, emits the error's description
exactly once to the diagnostic stream, invokes the help handler on this
parser, and throws the message-less `SilentError` marker; without a
registered `help` command the original parse error propagates unmodified. -/
theorem c6_parse_error_recovery (p : ParserInst) (argv : List String) (fuel : Nat) :
    (∀ f : ScanFail, parse p argv = .error f →
      (∀ help, lookupKey p.reg.cmds HELP_COMMAND_NAME = some help →
        run (fuel + 1) p argv =
          { events := [.emitError (parseErrMessage f.err),
                       .invoke help.handler p.defn.name none],
            error := some .silent, state := .DONE })
      ∧ (lookupKey p.reg.cmds HELP_COMMAND_NAME = none →
        run (fuel + 1) p argv =
          { events := [], error := some (.parserErr f.err), state := f.state }))
    ∧ (∀ (res : ScanResult) (cname : String) (cargv : List String) (command : Command)
         (child : ParserInst) (cout : RunOut) (e : ParseErr),
        parse p argv = .ok res →
        res.command = some (cname, cargv) →
        lookupKey p.reg.cmds cname = some command →
        command.ctype = .isolated →
        lookupKey p.parsers cname = some child →
        run fuel child cargv = cout →
        cout.error = some (.parserErr e) →
        (∀ help, lookupKey p.reg.cmds HELP_COMMAND_NAME = some help →
          run (fuel + 1) p argv =
            { events := cout.events ++ [.emitError (parseErrMessage e),
                                        .invoke help.handler p.defn.name none],
              error := some .silent, state := .DONE })
        ∧ (lookupKey p.reg.cmds HELP_COMMAND_NAME = none →
          run (fuel + 1) p argv =
            { events := cout.events, error := some (.parserErr e), state := .DONE })) := by
  constructor
  · intro f hparse
    constructor
    · intro help hhelp
      simp only [run, hparse, recover, hhelp, List.nil_append]
    · intro hhelp
      simp only [run, hparse, recover, hhelp]
  · intro res cname cargv command child cout e hparse hres hcmd hctype hchild hrun hcerr
    have hshared : (command.ctype = CmdType.shared) = False := by
      simp [hctype]
    constructor
    · intro help hhelp
      simp only [run, hparse, hres, hcmd, hshared, if_false, hchild, hrun, hcerr,
        recover, hhelp]
    · intro hhelp
      simp only [run, hparse, hres, hcmd, hshared, if_false, hchild, hrun, hcerr,
        recover, hhelp]

/-! Fixtures for the C6 witness: a parser with its builtin help disabled, and
a parent (with help) whose nested child has help disabled. -/

def noHelpDefn : IsolatedDef :=
  { name := "nh", handler := 40, commands := [("help", none)] }

def noHelpParser : ParserInst := getParser (buildParser noHelpDefn)

def nhChildDefn : IsolatedDef :=
  { name := "child", handler := 41, commands := [("help", none), ("version", none)] }

def dispDefn : IsolatedDef := { name := "disp", handler := 42 }

def dispParser : ParserInst := getParser (do
  let root ← buildParser dispDefn
  let c ← buildParser nhChildDefn
  nest root c)

/-- C6 witness: `c6_parse_error_recovery` applied at concrete inputs — an
invalid option with help registered (recovered once, then silent), the same
without help (original error propagates), and a child parser's propagated
parse error recovered by the parent. -/
theorem c6_parse_error_recovery_witness :
    run 1 cliParser ["--bogus"] =
      { events := [.emitError (parseErrMessage (.invalidOption "--bogus" "cli")),
                   .invoke HELP_HANDLER "cli" none],
        error := some .silent, state := .DONE }
    ∧ run 1 noHelpParser ["--bogus"] =
      { events := [], error := some (.parserErr (.invalidOption "--bogus" "nh")),
        state := .OPTION }
    ∧ run 2 dispParser ["child", "--bogus"] =
      { events := [.emitError (parseErrMessage (.invalidOption "--bogus" "child")),
                   .invoke HELP_HANDLER "disp" none],
        error := some .silent, state := .DONE } := by
  refine ⟨?_, ?_, ?_⟩
  · exact ((c6_parse_error_recovery cliParser ["--bogus"] 0).1
      ⟨.invalidOption "--bogus" "cli", .OPTION⟩ rfl).1 _ rfl
  · exact ((c6_parse_error_recovery noHelpParser ["--bogus"] 0).1
      ⟨.invalidOption "--bogus" "nh", .OPTION⟩ rfl).2 rfl
  · exact ((c6_parse_error_recovery dispParser ["child", "--bogus"] 1).2
      (createParserResult dispParser.reg [] [] (some ("child", ["--bogus"])))
      "child" ["--bogus"] _ _ _ (.invalidOption "--bogus" "child")
      rfl rfl rfl rfl rfl rfl rfl).1 _ rfl

/-! ## Registration lemmas -/

theorem lookupKey_append_left {α : Type} (l l2 : List (String × α)) (k : String) (v : α)
    (h : lookupKey l k = some v) : lookupKey (l ++ l2) k = some v := by
  induction l with
  | nil => simp [lookupKey] at h
  | cons p rest ih =>
      obtain ⟨k', w⟩ := p
      rw [lookupKey] at h
      rw [List.cons_append, lookupKey]
      by_cases hk : k' = k
      · simpa [hk] using h
      · simp only [hk, if_false] at h ⊢
        exact ih h

theorem lookupKey_append_right {α : Type} (l l2 : List (String × α)) (k : String)
    (h : lookupKey l k = none) : lookupKey (l ++ l2) k = lookupKey l2 k := by
  induction l with
  | nil => simp
  | cons p rest ih =>
      obtain ⟨k', w⟩ := p
      rw [lookupKey] at h
      rw [List.cons_append, lookupKey]
      by_cases hk : k' = k
      · simp [hk] at h
      · simp only [hk, if_false] at h ⊢
        exact ih h

/-- `insertOptionFlags` only appends to the option-flag table and leaves the
other tables untouched. -/
theorem insertOptionFlags_extends (o : RegOption) :
    ∀ (flags : List String) (st st' : RegState),
    insertOptionFlags o st flags = .ok st' →
    st'.cmds = st.cmds ∧ st'.cmdLookup = st.cmdLookup ∧ st'.options = st.options
    ∧ ∃ tail, st'.optLookup = st.optLookup ++ tail := by
  intro flags
  induction flags with
  | nil =>
      intro st st' h
      rw [insertOptionFlags] at h
      cases h
      exact ⟨rfl, rfl, rfl, [], by simp⟩
  | cons flag rest ih =>
      intro st st' h
      rw [insertOptionFlags] at h
      cases h1 : lookupKey st.optLookup flag with
      | some dup => rw [h1] at h; cases h
      | none =>
          rw [h1] at h
          cases h2 : lookupKey st.cmdLookup flag with
          | some conflict => rw [h2] at h; cases h
          | none =>
              rw [h2] at h
              have h' : insertOptionFlags o
                  { st with optLookup := st.optLookup ++ [(flag, o)] } rest = .ok st' := h
              obtain ⟨hc, hcl, ho, tail, hol⟩ := ih _ _ h'
              exact ⟨hc, hcl, ho, [(flag, o)] ++ tail, by rw [hol]; simp⟩

/-- Each inserted flag is present in the resulting option-flag table. -/
theorem insertOptionFlags_mem (o : RegOption) :
    ∀ (flags : List String) (st st' : RegState) (f : String),
    insertOptionFlags o st flags = .ok st' → f ∈ flags →
    ∃ w, lookupKey st'.optLookup f = some w := by
  intro flags
  induction flags with
  | nil => intro st st' f _ hf; cases hf
  | cons flag rest ih =>
      intro st st' f h hf
      rw [insertOptionFlags] at h
      cases h1 : lookupKey st.optLookup flag with
      | some dup => rw [h1] at h; cases h
      | none =>
          rw [h1] at h
          cases h2 : lookupKey st.cmdLookup flag with
          | some conflict => rw [h2] at h; cases h
          | none =>
              rw [h2] at h
              have h' : insertOptionFlags o
                  { st with optLookup := st.optLookup ++ [(flag, o)] } rest = .ok st' := h
              rcases List.mem_cons.mp hf with hf | hf
              · subst hf
                obtain ⟨_, _, _, tail, hol⟩ := insertOptionFlags_extends o rest _ _ h'
                refine ⟨o, ?_⟩
                have hbase : lookupKey (st.optLookup ++ [(f, o)]) f = some o := by
                  rw [lookupKey_append_right _ _ _ h1]
                  simp [lookupKey]
                have hol' : st'.optLookup = (st.optLookup ++ [(f, o)]) ++ tail := hol
                rw [hol']
                exact lookupKey_append_left _ _ _ _ hbase
              · exact ih _ _ f h' hf

/-- `registerOption` leaves the command tables untouched and only appends to
the option-flag table. -/
theorem registerOption_extends (st st' : RegState) (nm : String) (od : OptionDef)
    (h : registerOption st nm od = .ok st') :
    st'.cmds = st.cmds ∧ st'.cmdLookup = st.cmdLookup
    ∧ ∃ tail, st'.optLookup = st.optLookup ++ tail := by
  rw [registerOption] at h
  cases h1 : lookupKey st.options nm with
  | some existing => rw [h1] at h; cases h
  | none =>
      rw [h1] at h
      by_cases hh : ({ toOptionDef := od, name := nm } : RegOption).hidden
      · rw [if_pos hh] at h
        cases h
        exact ⟨rfl, rfl, [], by simp⟩
      · rw [if_neg hh] at h
        have h' : insertOptionFlags { toOptionDef := od, name := nm }
            { st with options := st.options ++ [(nm, { toOptionDef := od, name := nm })] }
            (optionFlagTokens nm od) = .ok st' := h
        obtain ⟨hc, hcl, _, tail, hol⟩ := insertOptionFlags_extends _ _ _ _ h'
        exact ⟨hc, hcl, tail, hol⟩

/-- A successfully registered non-hidden option has all of its flag tokens
in the option-flag table. -/
theorem registerOption_mem (st st' : RegState) (nm : String) (od : OptionDef) (f : String)
    (h : registerOption st nm od = .ok st') (hh : od.hidden = false)
    (hf : f ∈ optionFlagTokens nm od) :
    ∃ w, lookupKey st'.optLookup f = some w := by
  rw [registerOption] at h
  cases h1 : lookupKey st.options nm with
  | some existing => rw [h1] at h; cases h
  | none =>
      rw [h1] at h
      rw [show ({ toOptionDef := od, name := nm } : RegOption).hidden = false from hh] at h
      simp only [Bool.false_eq_true, if_false] at h
      have h' : insertOptionFlags { toOptionDef := od, name := nm }
          { st with options := st.options ++ [(nm, { toOptionDef := od, name := nm })] }
          (optionFlagTokens nm od) = .ok st' := h
      exact insertOptionFlags_mem _ _ _ _ f h' hf

/-- `registerOptions` leaves the command tables untouched and only appends
to the option-flag table. -/
theorem registerOptions_extends :
    ∀ (opts : List (String × OptionDef)) (st st' : RegState),
    registerOptions st opts = .ok st' →
    st'.cmds = st.cmds ∧ st'.cmdLookup = st.cmdLookup
    ∧ ∃ tail, st'.optLookup = st.optLookup ++ tail := by
  intro opts
  induction opts with
  | nil =>
      intro st st' h
      have h' : Except.ok st = Except.ok st' := h
      cases h'
      exact ⟨rfl, rfl, [], by simp⟩
  | cons p rest ih =>
      intro st st' h
      rw [registerOptions, List.foldlM] at h
      cases h1 : registerOption st p.1 p.2 with
      | error e => rw [h1] at h; cases h
      | ok st1 =>
          rw [h1] at h
          have h' : registerOptions st1 rest = .ok st' := h
          obtain ⟨hc1, hcl1, tail1, hol1⟩ := registerOption_extends st st1 p.1 p.2 h1
          obtain ⟨hc2, hcl2, tail2, hol2⟩ := ih st1 st' h'
          exact ⟨hc2.trans hc1, hcl2.trans hcl1, tail1 ++ tail2,
            by rw [hol2, hol1, List.append_assoc]⟩

/-- After a successful `registerOptions`, every flag token of every declared
non-hidden option is present in the option-flag table. -/
theorem registerOptions_mem :
    ∀ (opts : List (String × OptionDef)) (st st' : RegState) (nm : String) (od : OptionDef)
      (f : String),
    registerOptions st opts = .ok st' → (nm, od) ∈ opts → od.hidden = false →
    f ∈ optionFlagTokens nm od →
    ∃ w, lookupKey st'.optLookup f = some w := by
  intro opts
  induction opts with
  | nil => intro st st' nm od f _ hmem; cases hmem
  | cons p rest ih =>
      intro st st' nm od f h hmem hh hf
      rw [registerOptions, List.foldlM] at h
      cases h1 : registerOption st p.1 p.2 with
      | error e => rw [h1] at h; cases h
      | ok st1 =>
          rw [h1] at h
          have h' : registerOptions st1 rest = .ok st' := h
          rcases List.mem_cons.mp hmem with hm | hm
          · have h1' : registerOption st nm od = .ok st1 := by
              rw [← hm] at h1
              exact h1
            obtain ⟨w, hw⟩ := registerOption_mem st st1 nm od f h1' hh hf
            obtain ⟨_, _, tail, hol⟩ := registerOptions_extends rest st1 st' h'
            exact ⟨w, by rw [hol]; exact lookupKey_append_left _ _ _ _ hw⟩
          · exact ih st1 st' nm od f h' hm hh hf

/-- `insertCommandFlags` leaves the option tables untouched. -/
theorem insertCommandFlags_optLookup (c : Command) :
    ∀ (flags : List String) (st st' : RegState),
    insertCommandFlags c st flags = .ok st' →
    st'.optLookup = st.optLookup ∧ st'.options = st.options := by
  intro flags
  induction flags with
  | nil =>
      intro st st' h
      rw [insertCommandFlags] at h
      cases h
      exact ⟨rfl, rfl⟩
  | cons flag rest ih =>
      intro st st' h
      rw [insertCommandFlags] at h
      cases h1 : lookupKey st.cmdLookup flag with
      | some dup => rw [h1] at h; cases h
      | none =>
          rw [h1] at h
          cases h2 : lookupKey st.optLookup flag with
          | some conflict => rw [h2] at h; cases h
          | none =>
              rw [h2] at h
              have h' : insertCommandFlags c
                  { st with cmdLookup := st.cmdLookup ++ [(flag, c)] } rest = .ok st' := h
              have hih := ih _ _ h'
              exact hih

/-- `registerCommand` leaves the option tables untouched. -/
theorem registerCommand_optLookup (st st' : RegState) (nm : String) (d : CmdDefn)
    (h : registerCommand st nm d = .ok st') :
    st'.optLookup = st.optLookup ∧ st'.options = st.options := by
  rw [registerCommand] at h
  cases h1 : lookupKey st.cmds nm with
  | some existing => rw [h1] at h; cases h
  | none =>
      rw [h1] at h
      have h' : insertCommandFlags (CmdDefn.toCommand nm d)
          { st with cmds := st.cmds ++ [(nm, CmdDefn.toCommand nm d)] }
          (commandTokens nm (CmdDefn.toCommand nm d)) = .ok st' := h
      have hih := insertCommandFlags_optLookup _ _ _ _ h'
      exact hih

/-- An `insertCommandFlags` call whose single token is already a registered
option flag raises a registration error. -/
theorem insertCommandFlags_single_conflict (cmd : Command) (st : RegState) (t : String)
    (w : RegOption) (hw : lookupKey st.optLookup t = some w) :
    isOkE (insertCommandFlags cmd st [t]) = false := by
  rw [insertCommandFlags]
  cases h1 : lookupKey st.cmdLookup t with
  | some dup => rfl
  | none => rw [hw]; rfl

/-- An `insertCommandFlags` call whose second token is already a registered
option flag raises a registration error on every branch. -/
theorem insertCommandFlags_pair_conflict (cmd : Command) (st : RegState) (t1 t2 : String)
    (w : RegOption) (hw : lookupKey st.optLookup t2 = some w) :
    isOkE (insertCommandFlags cmd st [t1, t2]) = false := by
  rw [insertCommandFlags]
  cases h1 : lookupKey st.cmdLookup t1 with
  | some dup => rfl
  | none =>
      cases h2 : lookupKey st.optLookup t1 with
      | some conflict => rfl
      | none => exact insertCommandFlags_single_conflict cmd _ t2 w hw

/-- Registering an `asFlag` shared command with a single short name `c`
cannot succeed when `-c` is already a registered option flag: every branch
of the insertion loop raises a registration error. -/
theorem registerCommand_shortFlag_conflict (st : RegState) (nm c : String) (hdl : Nat)
    (w : RegOption) (hw : lookupKey st.optLookup (SHORT_FLAG_PREFIX ++ c) = some w) :
    isOkE (registerCommand st nm (.sharedD (.mk hdl [] [c] true none))) = false := by
  rw [registerCommand]
  cases h1 : lookupKey st.cmds nm with
  | some existing => rfl
  | none =>
      show isOkE (insertCommandFlags
          (CmdDefn.toCommand nm (.sharedD (.mk hdl [] [c] true none)))
          { st with cmds := st.cmds
              ++ [(nm, CmdDefn.toCommand nm (.sharedD (.mk hdl [] [c] true none)))] }
          [LONG_FLAG_PREFIX ++ nm, SHORT_FLAG_PREFIX ++ c]) = false
      exact insertCommandFlags_pair_conflict _ _ _ _ w hw

/-! ## Step equations for the registration pipeline -/

theorem exceptBind_ok {ε α β : Type} (a : α) (f : α → Except ε β) :
    Except.bind (Except.ok a) f = f a := rfl

theorem exceptBind_error {ε α β : Type} (e : ε) (f : α → Except ε β) :
    Except.bind (Except.error e) f = Except.error e := rfl

theorem isOkE_ok {ε α : Type} (a : α) : isOkE (Except.ok a : Except ε α) = true := rfl

theorem isOkE_error {ε α : Type} (e : ε) : isOkE (Except.error e : Except ε α) = false := rfl

theorem registerCommands_cons_some (st : RegState) (k : String) (dd : SharedDef)
    (rest : List (String × Option SharedDef)) :
    registerCommands st ((k, some dd) :: rest) =
      Except.bind (registerCommand st k (.sharedD dd))
        (fun st' => registerCommands st' rest) := rfl

theorem registerCommands_cons_none (st : RegState) (k : String)
    (rest : List (String × Option SharedDef)) :
    registerCommands st ((k, none) :: rest) = registerCommands st rest := rfl

theorem buildParser_eq (defn : IsolatedDef) :
    buildParser defn =
      Except.bind (registerOptions { argDefs := defn.args } defn.options)
        (fun st1 => Except.bind (registerCommands st1 (mergeBuiltins defn.commands))
          (fun st2 => Except.ok (.mk defn st2 []))) := rfl

theorem HELP_COMMAND_def : HELP_COMMAND = SharedDef.mk HELP_HANDLER [] ["h"] true none := rfl

theorem VERSION_COMMAND_def :
    VERSION_COMMAND = SharedDef.mk VERSION_HANDLER [] ["v"] true none := rfl

/-- Registering a command list whose head is an `asFlag` shared command with
single short name `c` fails when `-c` is already a registered option flag. -/
theorem registerCommands_head_short_conflict (st : RegState) (k c : String) (hdl : Nat)
    (rest : List (String × Option SharedDef)) (w : RegOption)
    (hw : lookupKey st.optLookup (SHORT_FLAG_PREFIX ++ c) = some w) :
    isOkE (registerCommands st ((k, some (SharedDef.mk hdl [] [c] true none)) :: rest))
      = false := by
  cases hrc : registerCommand st k (.sharedD (.mk hdl [] [c] true none)) with
  | error e => rw [registerCommands_cons_some, hrc, exceptBind_error, isOkE_error]
  | ok st2 =>
      have hconf := registerCommand_shortFlag_conflict st k c hdl w hw
      rw [hrc, isOkE_ok] at hconf
      cases hconf

/-- Registering a command list whose second entry is the builtin `version`
command fails when `-v` is already a registered option flag, whatever the
head entry is (the head either fails as well, or succeeds without touching
the option-flag table). -/
theorem registerCommands_version_conflict (st : RegState) (hd : String × Option SharedDef)
    (rest : List (String × Option SharedDef)) (w : RegOption)
    (hw : lookupKey st.optLookup (SHORT_FLAG_PREFIX ++ "v") = some w) :
    isOkE (registerCommands st (hd :: (VERSION_COMMAND_NAME, some VERSION_COMMAND) :: rest))
      = false := by
  obtain ⟨k, d⟩ := hd
  cases d with
  | none =>
      rw [registerCommands_cons_none, VERSION_COMMAND_def]
      exact registerCommands_head_short_conflict st VERSION_COMMAND_NAME "v"
        VERSION_HANDLER rest w hw
  | some dd =>
      cases hrc : registerCommand st k (.sharedD dd) with
      | error e => rw [registerCommands_cons_some, hrc, exceptBind_error, isOkE_error]
      | ok st2 =>
          have hol := (registerCommand_optLookup _ _ _ _ hrc).1
          have hw2 : lookupKey st2.optLookup (SHORT_FLAG_PREFIX ++ "v") = some w := by
            rw [hol]; exact hw
          rw [registerCommands_cons_some, hrc, exceptBind_ok, VERSION_COMMAND_def]
          exact registerCommands_head_short_conflict st2 VERSION_COMMAND_NAME "v"
            VERSION_HANDLER rest w hw2

/-- C10: a schema declaring a non-hidden option with short name `h`
(respectively `v`) that neither disables nor overrides the builtin `help`
(respectively `version`) command cannot be constructed: the builtins are
auto-registered after the user options with the flag-prefixed tokens
`--help`/`-h` and `--version`/`-v`, and the short token collides with the
option's `-h`/`-v` flag in the option lookup table, so `CliParser`
construction throws a registration error. -/
theorem c10_builtin_short_token_collision (defn : IsolatedDef) (nm : String) (od : OptionDef)
    (hmem : (nm, od) ∈ defn.options) (hh : od.hidden = false) :
    (("h" ∈ od.short ∧ lookupKey defn.commands HELP_COMMAND_NAME = none) →
      isOkE (buildParser defn) = false)
    ∧ (("v" ∈ od.short ∧ lookupKey defn.commands VERSION_COMMAND_NAME = none) →
      isOkE (buildParser defn) = false) := by
  constructor
  · rintro ⟨hsh, hhelp⟩
    cases hro : registerOptions { argDefs := defn.args } defn.options with
    | error e => rw [buildParser_eq, hro, exceptBind_error, isOkE_error]
    | ok st1 =>
        have hf : SHORT_FLAG_PREFIX ++ "h" ∈ optionFlagTokens nm od := by
          have hm : SHORT_FLAG_PREFIX ++ "h"
              ∈ od.short.map (fun flag => SHORT_FLAG_PREFIX ++ flag) :=
            List.mem_map_of_mem _ hsh
          exact List.mem_append_right _ hm
        obtain ⟨w, hw⟩ := registerOptions_mem defn.options _ st1 nm od _ hro hmem hh hf
        have hmb : mergeBuiltins defn.commands =
            (HELP_COMMAND_NAME, some HELP_COMMAND)
              :: ((VERSION_COMMAND_NAME,
                    (lookupKey defn.commands VERSION_COMMAND_NAME).getD (some VERSION_COMMAND))
              :: defn.commands.filter
                   (fun p => p.1 ≠ HELP_COMMAND_NAME ∧ p.1 ≠ VERSION_COMMAND_NAME)) := by
          rw [mergeBuiltins, hhelp]
          rfl
        have hrcs : isOkE (registerCommands st1 (mergeBuiltins defn.commands)) = false := by
          rw [hmb, HELP_COMMAND_def]
          exact registerCommands_head_short_conflict st1 HELP_COMMAND_NAME "h"
            HELP_HANDLER _ w hw
        cases hrc : registerCommands st1 (mergeBuiltins defn.commands) with
        | error e =>
            rw [buildParser_eq, hro, exceptBind_ok, hrc, exceptBind_error, isOkE_error]
        | ok st2 =>
            rw [hrc, isOkE_ok] at hrcs
            cases hrcs
  · rintro ⟨hsv, hver⟩
    cases hro : registerOptions { argDefs := defn.args } defn.options with
    | error e => rw [buildParser_eq, hro, exceptBind_error, isOkE_error]
    | ok st1 =>
        have hf : SHORT_FLAG_PREFIX ++ "v" ∈ optionFlagTokens nm od := by
          have hm : SHORT_FLAG_PREFIX ++ "v"
              ∈ od.short.map (fun flag => SHORT_FLAG_PREFIX ++ flag) :=
            List.mem_map_of_mem _ hsv
          exact List.mem_append_right _ hm
        obtain ⟨w, hw⟩ := registerOptions_mem defn.options _ st1 nm od _ hro hmem hh hf
        have hmb : mergeBuiltins defn.commands =
            (HELP_COMMAND_NAME, (lookupKey defn.commands HELP_COMMAND_NAME).getD
                (some HELP_COMMAND))
              :: ((VERSION_COMMAND_NAME, some VERSION_COMMAND)
              :: defn.commands.filter
                   (fun p => p.1 ≠ HELP_COMMAND_NAME ∧ p.1 ≠ VERSION_COMMAND_NAME)) := by
          rw [mergeBuiltins, hver]
          rfl
        have hrcs : isOkE (registerCommands st1 (mergeBuiltins defn.commands)) = false := by
          rw [hmb]
          exact registerCommands_version_conflict st1 _ _ w hw
        cases hrc : registerCommands st1 (mergeBuiltins defn.commands) with
        | error e =>
            rw [buildParser_eq, hro, exceptBind_ok, hrc, exceptBind_error, isOkE_error]
        | ok st2 =>
            rw [hrc, isOkE_ok] at hrcs
            cases hrcs

/-! Fixtures for the C10 witness. -/

def hOpt : OptionDef := { parse := BOOLEAN, short := ["h"] }

def c10hDefn : IsolatedDef := { name := "r10h", handler := 1, options := [("host", hOpt)] }

def vOpt : OptionDef := { parse := BOOLEAN, short := ["v"] }

def c10vDefn : IsolatedDef := { name := "r10v", handler := 1, options := [("verb", vOpt)] }

/-- C10 witness: `c10_builtin_short_token_collision` applied to concrete
schemas declaring a non-hidden option with short `h` (resp. `v`); both
constructions fail. -/
theorem c10_builtin_short_token_collision_witness :
    isOkE (buildParser c10hDefn) = false ∧ isOkE (buildParser c10vDefn) = false :=
  ⟨(c10_builtin_short_token_collision c10hDefn "host" hOpt (List.mem_singleton.mpr rfl)
      rfl).1 ⟨List.mem_singleton.mpr rfl, rfl⟩,
   (c10_builtin_short_token_collision c10vDefn "verb" vOpt (List.mem_singleton.mpr rfl)
      rfl).2 ⟨List.mem_singleton.mpr rfl, rfl⟩⟩

/-! ## C1: scan invariants for option resolution -/

/-- Token `t` does not resolve (via the option-flag table) to the option
named `n`. -/
def notFlagOf (reg : RegState) (n : String) (t : String) : Prop :=
  ∀ o : RegOption, lookupKey reg.optLookup t = some o → o.name ≠ n

/-- A successful `optionStep` on a token that does not resolve to `n` leaves
the accumulated `n` entry unchanged. -/
theorem optionStep_options_preserved (reg : RegState) (dn : String) (n : String)
    (curr : String) (next? : Option String) (args : List ArgEntry)
    (opts : List (String × Option Value)) (args' : List ArgEntry)
    (opts' : List (String × Option Value)) (sk : Bool)
    (h : optionStep reg dn curr next? args opts = .ok (args', opts', sk))
    (hn : notFlagOf reg n curr) :
    lookupKey opts' n = lookupKey opts n := by
  rw [optionStep] at h
  by_cases hf : isFlag curr
  · simp only [hf, Bool.not_true, Bool.false_eq_true, if_false] at h
    cases ho : lookupKey reg.optLookup curr with
    | none => rw [ho] at h; cases h
    | some o =>
        rw [ho] at h
        have h' := h
        injection h' with h1
        injection h1 with _ h2
        injection h2 with h3 _
        rw [← h3]
        exact lookupKey_setKey_ne opts o.name n _ (hn o ho)
  · simp only [hf, Bool.not_false, if_true] at h
    have h' := h
    injection h' with h1
    injection h1 with _ h2
    injection h2 with h3 _
    rw [← h3]

/-- A successful `optionStep` preserves distinctness of the accumulated
option keys. -/
theorem optionStep_keysDistinct (reg : RegState) (dn : String)
    (curr : String) (next? : Option String) (args : List ArgEntry)
    (opts : List (String × Option Value)) (args' : List ArgEntry)
    (opts' : List (String × Option Value)) (sk : Bool)
    (h : optionStep reg dn curr next? args opts = .ok (args', opts', sk))
    (hd : keysDistinct opts) : keysDistinct opts' := by
  rw [optionStep] at h
  by_cases hf : isFlag curr
  · simp only [hf, Bool.not_true, Bool.false_eq_true, if_false] at h
    cases ho : lookupKey reg.optLookup curr with
    | none => rw [ho] at h; cases h
    | some o =>
        rw [ho] at h
        injection h with h1
        injection h1 with _ h2
        injection h2 with h3 _
        rw [← h3]
        exact keysDistinct_setKey _ _ hd
  · simp only [hf, Bool.not_false, if_true] at h
    injection h with h1
    injection h1 with _ h2
    injection h2 with h3 _
    rw [← h3]
    exact hd

/-- Throughout a successful scan over tokens none of which resolve to `n`,
the accumulated `n` entry is unchanged (writes only happen for the owning
option's name). -/
theorem parseLoop_options_preserved (reg : RegState) (dn : String) (n : String) :
    ∀ (ts : List String) (skip : Bool) (state : CliParserState) (args : List ArgEntry)
      (opts : List (String × Option Value)) (cm : Option (String × List String))
      (acc : ScanAcc),
    parseLoop reg dn skip state ts args opts cm = .ok acc →
    (∀ t ∈ ts, notFlagOf reg n t) →
    lookupKey acc.options n = lookupKey opts n := by
  intro ts
  induction ts with
  | nil =>
      intro skip state args opts cm acc h _
      rw [parseLoop] at h
      cases h
      rfl
  | cons curr rest ih =>
      intro skip state args opts cm acc h hts
      cases skip with
      | true =>
          rw [parseLoop] at h
          exact ih false state args opts cm acc h
            (fun t ht => hts t (List.mem_cons_of_mem _ ht))
      | false =>
          rw [parseLoop] at h
          split at h
          · cases h
          · split at h
            · split at h
              · cases h
              · rename_i args' opts' sk hos
                have hcur : notFlagOf reg n curr := hts curr (List.mem_cons_self _ _)
                have hpres := optionStep_options_preserved reg dn n curr rest.head?
                  args opts args' opts' sk hos hcur
                rw [← hpres]
                exact ih sk CliParserState.OPTION args' opts' _ acc h
                  (fun t ht => hts t (List.mem_cons_of_mem _ ht))
            · exact ih false _ args opts _ acc h
                (fun t ht => hts t (List.mem_cons_of_mem _ ht))

/-- Throughout a successful scan, the accumulated option keys stay
pairwise distinct. -/
theorem parseLoop_keysDistinct (reg : RegState) (dn : String) :
    ∀ (ts : List String) (skip : Bool) (state : CliParserState) (args : List ArgEntry)
      (opts : List (String × Option Value)) (cm : Option (String × List String))
      (acc : ScanAcc),
    parseLoop reg dn skip state ts args opts cm = .ok acc →
    keysDistinct opts →
    keysDistinct acc.options := by
  intro ts
  induction ts with
  | nil =>
      intro skip state args opts cm acc h hd
      rw [parseLoop] at h
      cases h
      exact hd
  | cons curr rest ih =>
      intro skip state args opts cm acc h hd
      cases skip with
      | true =>
          rw [parseLoop] at h
          exact ih false state args opts cm acc h hd
      | false =>
          rw [parseLoop] at h
          split at h
          · cases h
          · split at h
            · split at h
              · cases h
              · rename_i args' opts' sk hos
                exact ih sk CliParserState.OPTION args' opts' _ acc h
                  (optionStep_keysDistinct reg dn curr rest.head? args opts
                    args' opts' sk hos hd)
            · exact ih false _ args opts _ acc h hd

theorem lookupKey_none_not_mem {α : Type} (l : List (String × α)) (n : String)
    (h : lookupKey l n = none) : ∀ v', (n, v') ∉ l := by
  induction l with
  | nil => intro v' hv; cases hv
  | cons p rest ih =>
      obtain ⟨k, w⟩ := p
      rw [lookupKey] at h
      by_cases hk : k = n
      · simp [hk] at h
      · intro v' hv
        rcases List.mem_cons.mp hv with hv | hv
        · exact hk (by injection hv with h1 _; exact h1.symm)
        · rw [if_neg hk] at h
          exact ih h v' hv

/-- The extra advance of `optionStep` only happens when the next token is
not a flag. -/
theorem optionStep_skip_imp (reg : RegState) (dn : String) (curr : String)
    (next? : Option String) (args : List ArgEntry) (opts : List (String × Option Value))
    (args' : List ArgEntry) (opts' : List (String × Option Value))
    (h : optionStep reg dn curr next? args opts = .ok (args', opts', true)) :
    isFlag (next?.getD "") = false := by
  rw [optionStep] at h
  by_cases hf : isFlag curr
  · simp only [hf, Bool.not_true, Bool.false_eq_true, if_false] at h
    cases ho : lookupKey reg.optLookup curr with
    | none => rw [ho] at h; cases h
    | some o =>
        rw [ho] at h
        injection h with h1
        injection h1 with _ h2
        injection h2 with _ h3
        cases hnf : isFlag (next?.getD "")
        · rfl
        · rw [hnf] at h3
          cases h3
  · simp only [hf, Bool.not_false, if_true] at h
    injection h with h1
    injection h1 with _ h2
    injection h2 with _ h3
    cases h3

/-- `optionStep` on a non-negated registered flag whose next token exists
and is not a flag: feed the next token and skip it. -/
theorem optionStep_value (reg : RegState) (dn : String) (curr : String)
    (next? : Option String) (args : List ArgEntry) (opts : List (String × Option Value))
    (o : RegOption) (hf : isFlag curr = true)
    (ho : lookupKey reg.optLookup curr = some o) (hneg : isNegatedFlag curr = false)
    (hnv : isFlag (next?.getD "") = false) :
    optionStep reg dn curr next? args opts
      = .ok (args, setKey opts o.name (o.parse (some (next?.getD ""))), true) := by
  rw [optionStep]
  simp only [hf, Bool.not_true, Bool.false_eq_true, if_false, ho, hneg, hnv,
    Bool.not_false, if_true]

/-- `optionStep` on a negated registered flag: feed the absent sentinel (and
still compute the skip from the next token). -/
theorem optionStep_negated (reg : RegState) (dn : String) (curr : String)
    (next? : Option String) (args : List ArgEntry) (opts : List (String × Option Value))
    (o : RegOption) (hf : isFlag curr = true)
    (ho : lookupKey reg.optLookup curr = some o) (hneg : isNegatedFlag curr = true) :
    optionStep reg dn curr next? args opts
      = .ok (args, setKey opts o.name (o.parse none), !isFlag (next?.getD "")) := by
  rw [optionStep]
  simp only [hf, Bool.not_true, Bool.false_eq_true, if_false, ho, hneg, if_true]

/-- A successful `commandPhase` preserves the presence of a command match. -/
theorem commandPhase_cm_some (reg : RegState) (state : CliParserState) (curr : String)
    (rest : List String) (cm : Option (String × List String))
    (state' : CliParserState) (cm' : Option (String × List String))
    (h : commandPhase reg state curr rest cm = .ok (state', cm'))
    (hc : cm.isSome = true) : cm'.isSome = true := by
  rw [commandPhase] at h
  split at h
  · split at h
    · cases h
    · split at h
      · injection h with h1
        injection h1 with _ h2
        rw [← h2]
        rfl
      · injection h with h1
        injection h1 with _ h2
        rw [← h2]
        rfl
  · injection h with h1
    injection h1 with _ h2
    rw [← h2]
    exact hc

/-- The command-scanning part of one loop iteration preserves the presence
of a command match. -/
theorem scanStep_cm_some {c : Prop} [Decidable c] (reg : RegState) (state : CliParserState)
    (curr : String) (rest : List String) (cm : Option (String × List String))
    (state' : CliParserState) (cm' : Option (String × List String))
    (h : (if c then commandPhase reg state curr rest cm else Except.ok (state, cm))
          = Except.ok (state', cm'))
    (hc : cm.isSome = true) : cm'.isSome = true := by
  by_cases hcc : c
  · rw [if_pos hcc] at h
    exact commandPhase_cm_some reg state curr rest cm state' cm' h hc
  · rw [if_neg hcc] at h
    injection h with h1
    injection h1 with _ h2
    rw [← h2]
    exact hc

/-- Once a command has been matched, the scan's final result still carries a
command match. -/
theorem parseLoop_command_some (reg : RegState) (dn : String) :
    ∀ (ts : List String) (skip : Bool) (state : CliParserState) (args : List ArgEntry)
      (opts : List (String × Option Value)) (cm : Option (String × List String))
      (acc : ScanAcc),
    parseLoop reg dn skip state ts args opts cm = .ok acc →
    cm.isSome = true →
    acc.command.isSome = true := by
  intro ts
  induction ts with
  | nil =>
      intro skip state args opts cm acc h hc
      rw [parseLoop] at h
      cases h
      exact hc
  | cons curr rest ih =>
      intro skip state args opts cm acc h hc
      cases skip with
      | true =>
          rw [parseLoop] at h
          exact ih false state args opts cm acc h hc
      | false =>
          rw [parseLoop] at h
          split at h
          · cases h
          · split at h
            · split at h
              · cases h
              · rename_i xa state' cm' hsc hst xb args' opts' sk hos
                exact ih sk CliParserState.OPTION args' opts' cm' acc h
                  (scanStep_cm_some reg state curr rest cm state' cm' hsc hc)
            · rename_i xa state' cm' hsc hst
              exact ih false state' args opts cm' acc h
                (scanStep_cm_some reg state curr rest cm state' cm' hsc hc)

/-- A command match at a token in `COMMAND` state records the match and the
residual slice, then continues in `SHARED` state (shared command) or `DONE`
state (isolated command). -/
theorem parseLoop_COMMAND_hit (reg : RegState) (dn : String) (t : String) (ts : List String)
    (args : List ArgEntry) (opts : List (String × Option Value))
    (c : Command) (hl : lookupKey reg.cmdLookup t = some c) :
    parseLoop reg dn false .COMMAND (t :: ts) args opts none
      = (if c.ctype = .shared
         then parseLoop reg dn false .SHARED ts args opts (some (c.name, ts))
         else parseLoop reg dn false .DONE ts args opts (some (c.name, ts))) := by
  have hcp : commandPhase reg .COMMAND t ts none =
      (if c.ctype = .shared then Except.ok (.SHARED, some (c.name, ts))
       else Except.ok (.DONE, some (c.name, ts))) := by
    cases hct : c.ctype <;> simp [commandPhase, hl, hct]
  rw [parseLoop, if_pos (Or.inl rfl), hcp]
  cases hct : c.ctype <;> simp [hct]

/-- A command-table miss in `COMMAND` state moves to `OPTION` state and
re-evaluates the same token: the scan from `COMMAND` equals the scan from
`OPTION`. -/
theorem parseLoop_COMMAND_miss (reg : RegState) (dn : String) (t : String) (ts : List String)
    (args : List ArgEntry) (opts : List (String × Option Value))
    (cm : Option (String × List String)) (hl : lookupKey reg.cmdLookup t = none) :
    parseLoop reg dn false .COMMAND (t :: ts) args opts cm
      = parseLoop reg dn false .OPTION (t :: ts) args opts cm := by
  have hcp : commandPhase reg .COMMAND t ts cm = .ok (.OPTION, cm) := by
    rw [commandPhase, hl]
  rw [parseLoop, parseLoop, if_pos (Or.inl rfl), hcp,
    if_neg (show ¬(CliParserState.OPTION = CliParserState.COMMAND
      ∨ CliParserState.OPTION = CliParserState.SHARED) by simp)]

/-- Unfold a successful `parse` into its scan accumulator. -/
theorem parse_destruct (p : ParserInst) (argv : List String) (res : ScanResult)
    (h : parse p argv = .ok res) :
    ∃ acc : ScanAcc,
      parseLoop p.reg p.defn.name false .COMMAND argv [] [] none = .ok acc
      ∧ res = createParserResult p.reg acc.args acc.options acc.command := by
  rw [parse] at h
  cases hpl : parseLoop p.reg p.defn.name false .COMMAND argv [] [] none with
  | error f => rw [hpl] at h; cases h
  | ok acc =>
      rw [hpl] at h
      injection h with h1
      exact ⟨acc, rfl, h1.symm⟩

/-- In a scan whose result carries no command match, the first token missed
the command table and the whole scan runs under the `OPTION` rules. -/
theorem parseLoop_no_match (reg : RegState) (dn : String) (t : String) (ts : List String)
    (args : List ArgEntry) (opts : List (String × Option Value)) (acc : ScanAcc)
    (h : parseLoop reg dn false .COMMAND (t :: ts) args opts none = .ok acc)
    (hnone : acc.command = none) :
    lookupKey reg.cmdLookup t = none
    ∧ parseLoop reg dn false .OPTION (t :: ts) args opts none = .ok acc := by
  cases hl : lookupKey reg.cmdLookup t with
  | some c =>
      exfalso
      rw [parseLoop_COMMAND_hit reg dn t ts args opts c hl] at h
      have hsome : acc.command.isSome = true := by
        by_cases hcs : c.ctype = CmdType.shared
        · rw [if_pos hcs] at h
          exact parseLoop_command_some reg dn ts false .SHARED args opts _ acc h rfl
        · rw [if_neg hcs] at h
          exact parseLoop_command_some reg dn ts false .DONE args opts _ acc h rfl
      rw [hnone] at hsome
      cases hsome
  | none =>
      exact ⟨rfl, by rw [← parseLoop_COMMAND_miss reg dn t ts args opts none hl]; exact h⟩

/-- `sharedCheck` never succeeds: the registered command is a fresh copy of
the schema definition, so the reference comparison is always false (the C4
bug), and every other branch throws as well. -/
theorem sharedCheck_error (reg : RegState) (cm : Option (String × List String)) (c : Command) :
    ∃ e, sharedCheck reg cm c = .error e := by
  cases cm with
  | none => exact ⟨.internal, rfl⟩
  | some cmv =>
      cases hp : lookupKey reg.cmds cmv.1 with
      | none => exact ⟨.internal, by simp [sharedCheck, hp]⟩
      | some parent =>
          refine ⟨.invalidCommand c.name (some parent.name), ?_⟩
          cases he : parent.nested.bind (fun m => lookupKey m c.name) with
          | none => simp [sharedCheck, hp, he]
          | some d => simp [sharedCheck, hp, he, isSameObjectAsRegistered]

/-- A command-table miss in `SHARED` state moves to `OPTION` state and
re-evaluates the same token, exactly as a miss in `COMMAND` state does. -/
theorem parseLoop_SHARED_miss (reg : RegState) (dn : String) (t : String) (ts : List String)
    (args : List ArgEntry) (opts : List (String × Option Value))
    (cm : Option (String × List String)) (hl : lookupKey reg.cmdLookup t = none) :
    parseLoop reg dn false .SHARED (t :: ts) args opts cm
      = parseLoop reg dn false .OPTION (t :: ts) args opts cm := by
  have hcp : commandPhase reg .SHARED t ts cm = .ok (.OPTION, cm) := by
    rw [commandPhase, hl]
  rw [parseLoop, parseLoop, if_pos (Or.inr rfl), hcp,
    if_neg (show ¬(CliParserState.OPTION = CliParserState.COMMAND
      ∨ CliParserState.OPTION = CliParserState.SHARED) by simp)]

/-- A command-table hit in `SHARED` state always throws (`sharedCheck` never
succeeds), so such a scan cannot complete normally. -/
theorem parseLoop_SHARED_hit (reg : RegState) (dn : String) (t : String) (ts : List String)
    (args : List ArgEntry) (opts : List (String × Option Value))
    (cm : Option (String × List String)) (c : Command)
    (hl : lookupKey reg.cmdLookup t = some c) (acc : ScanAcc)
    (h : parseLoop reg dn false .SHARED (t :: ts) args opts cm = .ok acc) : False := by
  obtain ⟨e, he⟩ := sharedCheck_error reg cm c
  have hcp : commandPhase reg .SHARED t ts cm = .error e := by
    simp [commandPhase, hl, he]
  rw [parseLoop, if_pos (Or.inr rfl), hcp] at h
  have h' : Except.error (⟨e, CliParserState.SHARED⟩ : ScanFail) = Except.ok acc := h
  exact Except.noConfusion h'

/-! Step equations of the scan loop (all definitional). -/

theorem parseLoop_nil (reg : RegState) (dn : String) (skip : Bool) (state : CliParserState)
    (args : List ArgEntry) (opts : List (String × Option Value))
    (cm : Option (String × List String)) :
    parseLoop reg dn skip state [] args opts cm = .ok ⟨state, args, opts, cm⟩ := by
  cases skip <;> rfl

theorem parseLoop_skip_cons (reg : RegState) (dn : String) (state : CliParserState)
    (t : String) (ts : List String) (args : List ArgEntry)
    (opts : List (String × Option Value)) (cm : Option (String × List String)) :
    parseLoop reg dn true state (t :: ts) args opts cm
      = parseLoop reg dn false state ts args opts cm := rfl

theorem parseLoop_OPTION_cons (reg : RegState) (dn : String) (t : String) (ts : List String)
    (args : List ArgEntry) (opts : List (String × Option Value))
    (cm : Option (String × List String)) :
    parseLoop reg dn false .OPTION (t :: ts) args opts cm
      = (match optionStep reg dn t ts.head? args opts with
         | .error e => .error ⟨e, .OPTION⟩
         | .ok (args', opts', sk) => parseLoop reg dn sk .OPTION ts args' opts' cm) := rfl

/-- Walking a prefix of tokens that do not resolve to `n` under the `OPTION`
rules reaches the suffix (whose first token is a flag, hence never consumed
as a value) with the accumulated `n` entry unchanged. -/
theorem parseLoop_walk (reg : RegState) (dn : String) (n : String) :
    ∀ (k : Nat) (pre suffix : List String) (args : List ArgEntry)
      (opts : List (String × Option Value)) (cm : Option (String × List String))
      (acc : ScanAcc),
    pre.length ≤ k →
    (∀ t ∈ pre, notFlagOf reg n t) →
    isFlag (suffix.head?.getD "") = true →
    parseLoop reg dn false .OPTION (pre ++ suffix) args opts cm = .ok acc →
    ∃ (args2 : List ArgEntry) (opts2 : List (String × Option Value)),
      parseLoop reg dn false .OPTION suffix args2 opts2 cm = .ok acc
      ∧ lookupKey opts2 n = lookupKey opts n
      ∧ (keysDistinct opts → keysDistinct opts2) := by
  intro k
  induction k with
  | zero =>
      intro pre suffix args opts cm acc hlen hpre hsf h
      have hpe : pre = [] := List.length_eq_zero.mp (Nat.le_zero.mp hlen)
      subst hpe
      exact ⟨args, opts, h, rfl, fun hd => hd⟩
  | succ k ihk =>
      intro pre suffix args opts cm acc hlen hpre hsf h
      cases pre with
      | nil => exact ⟨args, opts, h, rfl, fun hd => hd⟩
      | cons p pre' =>
          rw [List.cons_append, parseLoop_OPTION_cons] at h
          cases hos : optionStep reg dn p (pre' ++ suffix).head? args opts with
          | error e => rw [hos] at h; cases h
          | ok os =>
              obtain ⟨args', opts', sk⟩ := os
              rw [hos] at h
              have hpn : notFlagOf reg n p := hpre p (List.mem_cons_self _ _)
              have hkeep := optionStep_options_preserved reg dn n p _ args opts args' opts'
                sk hos hpn
              have hdk : keysDistinct opts → keysDistinct opts' := fun hd =>
                optionStep_keysDistinct reg dn p _ args opts args' opts' sk hos hd
              cases sk with
              | false =>
                  obtain ⟨args2, opts2, h2, hl2, hd2⟩ := ihk pre' suffix args' opts' cm acc
                    (by simp only [List.length_cons] at hlen; omega)
                    (fun t ht => hpre t (List.mem_cons_of_mem _ ht)) hsf h
                  exact ⟨args2, opts2, h2, by rw [hl2, hkeep], fun hd => hd2 (hdk hd)⟩
              | true =>
                  cases pre' with
                  | nil =>
                      exfalso
                      have hni := optionStep_skip_imp reg dn p _ args opts args' opts' hos
                      have hni2 : isFlag (suffix.head?.getD "") = false := hni
                      exact Bool.noConfusion (hsf.symm.trans hni2)
                  | cons q pre'' =>
                      have h' : parseLoop reg dn true CliParserState.OPTION
                          (q :: (pre'' ++ suffix)) args' opts' cm = .ok acc := h
                      rw [parseLoop_skip_cons] at h'
                      obtain ⟨args2, opts2, h2, hl2, hd2⟩ := ihk pre'' suffix args' opts' cm acc
                        (by simp only [List.length_cons] at hlen; omega)
                        (fun t ht => hpre t (List.mem_cons_of_mem _
                          (List.mem_cons_of_mem _ ht))) hsf h'
                      exact ⟨args2, opts2, h2, by rw [hl2, hkeep], fun hd => hd2 (hdk hd)⟩

/-- Core of C1(b): under the `OPTION` rules, a non-negated registered flag
followed by a non-flag value token stores the converter applied to that
token under the option's name; subsequent tokens that do not resolve to the
option leave the entry in place. -/
theorem parseLoop_flag_value_core (reg : RegState) (dn : String) (n : String)
    (f v : String) (post : List String) (args : List ArgEntry)
    (opts : List (String × Option Value)) (cm : Option (String × List String))
    (acc : ScanAcc) (o : RegOption)
    (ho : lookupKey reg.optLookup f = some o) (hn : o.name = n)
    (hf : isFlag f = true) (hneg : isNegatedFlag f = false) (hv : isFlag v = false)
    (hpost : ∀ t ∈ post, notFlagOf reg n t)
    (h : parseLoop reg dn false .OPTION (f :: v :: post) args opts cm = .ok acc) :
    lookupKey acc.options n = some (o.parse (some v)) := by
  subst hn
  rw [parseLoop_OPTION_cons] at h
  have hv' : isFlag (((v :: post).head?).getD "") = false := hv
  rw [optionStep_value reg dn f (v :: post).head? args opts o hf ho hneg hv'] at h
  have h' : parseLoop reg dn true CliParserState.OPTION (v :: post) args
      (setKey opts o.name (o.parse (some ((v :: post).head?.getD "")))) cm = .ok acc := h
  rw [parseLoop_skip_cons] at h'
  have hpres := parseLoop_options_preserved reg dn o.name post false .OPTION _ _ cm acc h' hpost
  rw [hpres]
  exact lookupKey_setKey_self opts o.name _

/-- Core of C1(c): under the `OPTION` rules, a negated registered flag
stores the converter's absent-input result under the option's name;
subsequent tokens that do not resolve to the option leave the entry in
place (though the token right after the negated flag may be skipped). -/
theorem parseLoop_negated_core (reg : RegState) (dn : String) (n : String)
    (f : String) (post : List String) (args : List ArgEntry)
    (opts : List (String × Option Value)) (cm : Option (String × List String))
    (acc : ScanAcc) (o : RegOption)
    (ho : lookupKey reg.optLookup f = some o) (hn : o.name = n)
    (hf : isFlag f = true) (hneg : isNegatedFlag f = true)
    (hpost : ∀ t ∈ post, notFlagOf reg n t)
    (h : parseLoop reg dn false .OPTION (f :: post) args opts cm = .ok acc) :
    lookupKey acc.options n = some (o.parse none) := by
  subst hn
  rw [parseLoop_OPTION_cons] at h
  rw [optionStep_negated reg dn f post.head? args opts o hf ho hneg] at h
  cases post with
  | nil =>
      have h' : parseLoop reg dn true CliParserState.OPTION [] args
          (setKey opts o.name (o.parse none)) cm = .ok acc := h
      rw [parseLoop_nil] at h'
      injection h' with h1
      rw [← h1]
      exact lookupKey_setKey_self opts o.name _
  | cons q post' =>
      have hhd : ((q :: post').head?).getD "" = q := rfl
      cases hq : isFlag q with
      | true =>
          rw [hhd, hq] at h
          have h' : parseLoop reg dn false CliParserState.OPTION (q :: post') args
              (setKey opts o.name (o.parse none)) cm = .ok acc := h
          have hpres := parseLoop_options_preserved reg dn o.name (q :: post') false
            .OPTION _ _ cm acc h' hpost
          rw [hpres]
          exact lookupKey_setKey_self opts o.name _
      | false =>
          rw [hhd, hq] at h
          have h' : parseLoop reg dn true CliParserState.OPTION (q :: post') args
              (setKey opts o.name (o.parse none)) cm = .ok acc := h
          rw [parseLoop_skip_cons] at h'
          have hpres := parseLoop_options_preserved reg dn o.name post' false
            .OPTION _ _ cm acc h'
            (fun t ht => hpost t (List.mem_cons_of_mem _ ht))
          rw [hpres]
          exact lookupKey_setKey_self opts o.name _

/-! Fixtures and counterexample for C1 as originally stated. -/

def verbOpt : OptionDef := { parse := BOOLEAN, dflt := some (.vBool false) }

def c1Defn : IsolatedDef :=
  { name := "c1", handler := 50, options := [("verbose", verbOpt)] }

def c1Parser : ParserInst := getParser (buildParser c1Defn)

/-- The `config` entry for `n` of a scan outcome (`none` when the scan
failed). -/
def cfgAt (r : Except ScanFail ScanResult) (n : String) : Option (Option Value) :=
  match r with
  | .ok res => lookupKey res.config n
  | .error _ => none

/-- C1 counterexample: the claim as stated fails on the code in two ways.
(1) On the §8 schema, the scan of `["echo", "--foo", "val"]` completes
without error and contains exactly one occurrence of a flag of `foo` with
the attached non-flag value `"val"`, yet `config().foo` is the default
`"bar"`, not the converted value — the isolated command match ends the scan
and the flag is never processed. (2) On a boolean `verbose` option, the scan
of `["--no-verbose", "--verbose"]` completes without error and contains the
negated flag of `verbose`, yet `config().verbose` is `true`, not the
converter's absent-input result `false`. -/
theorem c1_counterexample_matched_command_and_overwrite :
    cfgAt (parse cliParser ["echo", "--foo", "val"]) "foo" = some (some (.vStr "bar"))
    ∧ (lookupKey cliParser.reg.optLookup "--foo").map RegOption.name = some "foo"
    ∧ isFlag "--foo" = true ∧ isNegatedFlag "--foo" = false ∧ isFlag "val" = false
    ∧ STRING (some "val") = some (.vStr "val")
    ∧ cfgAt (parse cliParser ["echo", "--foo", "val"]) "foo" ≠ some (STRING (some "val"))
    ∧ cfgAt (parse c1Parser ["--no-verbose", "--verbose"]) "verbose"
        = some (some (.vBool true))
    ∧ (lookupKey c1Parser.reg.optLookup "--no-verbose").map RegOption.name = some "verbose"
    ∧ isNegatedFlag "--no-verbose" = true
    ∧ BOOLEAN none = some (.vBool false)
    ∧ cfgAt (parse c1Parser ["--no-verbose", "--verbose"]) "verbose" ≠ some (BOOLEAN none) := by
  refine ⟨rfl, rfl, rfl, rfl, rfl, rfl, ?_, rfl, rfl, rfl, rfl, ?_⟩
  · intro hc
    have e1 : cfgAt (parse cliParser ["echo", "--foo", "val"]) "foo"
        = some (some (.vStr "bar")) := rfl
    rw [e1] at hc
    simp [STRING, isEmpty] at hc
  · intro hc
    have e1 : cfgAt (parse c1Parser ["--no-verbose", "--verbose"]) "verbose"
        = some (some (.vBool true)) := rfl
    rw [e1] at hc
    simp [BOOLEAN] at hc

/-! ## C5: registration conflict detection -/

/-- The registration-error kinds corresponding to the documented collision
cases (everything except the unreachable duplicate-parser error). -/
def isCollisionError : RegError → Bool
  | .duplicateParser _ _ => false
  | _ => true

theorem lookupKey_singleton {α : Type} (k key : String) (v : α) :
    lookupKey [(k, v)] key = if k = key then some v else none := by
  rw [lookupKey]
  by_cases h : k = key <;> simp [h, lookupKey]

/-- Appending a fresh key preserves key distinctness. -/
theorem keysDistinct_append_one {α : Type} (l : List (String × α)) (k : String) (v : α)
    (hd : keysDistinct l) (hl : lookupKey l k = none) :
    keysDistinct (l ++ [(k, v)]) := by
  rw [keysDistinct, List.pairwise_append]
  refine ⟨hd, by rw [keysDistinct] at *; simp, ?_⟩
  intro p hp q hq
  have hq' : q = (k, v) := List.mem_singleton.mp hq
  subst hq'
  obtain ⟨pk, pv⟩ := p
  intro he
  simp only at he
  subst he
  exact lookupKey_none_not_mem l pk hl pv hp

/-- Every option flag key is absent from the command-token table. -/
def tablesDisjoint (st : RegState) : Prop :=
  ∀ k : String, (lookupKey st.optLookup k).isSome = true → lookupKey st.cmdLookup k = none

/-- The registration-table well-formedness invariant: duplicate-free keys in
all four tables and disjointness of the two lookup tables. -/
def regInvariant (st : RegState) : Prop :=
  keysDistinct st.optLookup ∧ keysDistinct st.cmdLookup ∧ tablesDisjoint st
  ∧ keysDistinct st.options ∧ keysDistinct st.cmds

theorem insertOptionFlags_inv (o : RegOption) :
    ∀ (flags : List String) (st st' : RegState),
    insertOptionFlags o st flags = .ok st' → regInvariant st → regInvariant st' := by
  intro flags
  induction flags with
  | nil =>
      intro st st' h hi
      rw [insertOptionFlags] at h
      cases h
      exact hi
  | cons flag rest ih =>
      intro st st' h hi
      rw [insertOptionFlags] at h
      cases h1 : lookupKey st.optLookup flag with
      | some dup => rw [h1] at h; cases h
      | none =>
          rw [h1] at h
          cases h2 : lookupKey st.cmdLookup flag with
          | some conflict => rw [h2] at h; cases h
          | none =>
              rw [h2] at h
              have h' : insertOptionFlags o
                  { st with optLookup := st.optLookup ++ [(flag, o)] } rest = .ok st' := h
              refine ih _ _ h' ?_
              obtain ⟨hio, hic, hdj, hoo, hcc⟩ := hi
              refine ⟨keysDistinct_append_one _ _ _ hio h1, hic, ?_, hoo, hcc⟩
              intro k hk
              simp only at hk ⊢
              cases hol : lookupKey st.optLookup k with
              | some w => exact hdj k (by rw [hol]; rfl)
              | none =>
                  rw [lookupKey_append_right _ _ _ hol, lookupKey_singleton] at hk
                  by_cases hfk : flag = k
                  · rw [← hfk]
                    exact h2
                  · rw [if_neg hfk] at hk
                    cases hk

theorem registerOption_inv (st st' : RegState) (nm : String) (od : OptionDef)
    (h : registerOption st nm od = .ok st') (hi : regInvariant st) : regInvariant st' := by
  rw [registerOption] at h
  cases h1 : lookupKey st.options nm with
  | some existing => rw [h1] at h; cases h
  | none =>
      rw [h1] at h
      obtain ⟨hio, hic, hdj, hoo, hcc⟩ := hi
      have hi2 : regInvariant
          { st with options := st.options ++ [(nm, { toOptionDef := od, name := nm })] } :=
        ⟨hio, hic, hdj, keysDistinct_append_one _ _ _ hoo h1, hcc⟩
      by_cases hh : ({ toOptionDef := od, name := nm } : RegOption).hidden
      · rw [if_pos hh] at h
        cases h
        exact hi2
      · rw [if_neg hh] at h
        exact insertOptionFlags_inv _ _ _ _ h hi2

theorem registerOptions_inv :
    ∀ (opts : List (String × OptionDef)) (st st' : RegState),
    registerOptions st opts = .ok st' → regInvariant st → regInvariant st' := by
  intro opts
  induction opts with
  | nil =>
      intro st st' h hi
      have h' : Except.ok st = Except.ok st' := h
      cases h'
      exact hi
  | cons p rest ih =>
      intro st st' h hi
      rw [registerOptions, List.foldlM] at h
      cases h1 : registerOption st p.1 p.2 with
      | error e => rw [h1] at h; cases h
      | ok st1 =>
          rw [h1] at h
          have h' : registerOptions st1 rest = .ok st' := h
          exact ih st1 st' h' (registerOption_inv st st1 p.1 p.2 h1 hi)

theorem insertCommandFlags_inv (c : Command) :
    ∀ (flags : List String) (st st' : RegState),
    insertCommandFlags c st flags = .ok st' → regInvariant st → regInvariant st' := by
  intro flags
  induction flags with
  | nil =>
      intro st st' h hi
      rw [insertCommandFlags] at h
      cases h
      exact hi
  | cons flag rest ih =>
      intro st st' h hi
      rw [insertCommandFlags] at h
      cases h1 : lookupKey st.cmdLookup flag with
      | some dup => rw [h1] at h; cases h
      | none =>
          rw [h1] at h
          cases h2 : lookupKey st.optLookup flag with
          | some conflict => rw [h2] at h; cases h
          | none =>
              rw [h2] at h
              have h' : insertCommandFlags c
                  { st with cmdLookup := st.cmdLookup ++ [(flag, c)] } rest = .ok st' := h
              refine ih _ _ h' ?_
              obtain ⟨hio, hic, hdj, hoo, hcc⟩ := hi
              refine ⟨hio, keysDistinct_append_one _ _ _ hic h1, ?_, hoo, hcc⟩
              intro k hk
              simp only at hk ⊢
              have hck : lookupKey st.cmdLookup k = none := hdj k hk
              rw [lookupKey_append_right _ _ _ hck, lookupKey_singleton]
              by_cases hfk : flag = k
              · subst hfk
                rw [h2] at hk
                cases hk
              · rw [if_neg hfk]

theorem registerCommand_inv (st st' : RegState) (nm : String) (d : CmdDefn)
    (h : registerCommand st nm d = .ok st') (hi : regInvariant st) : regInvariant st' := by
  rw [registerCommand] at h
  cases h1 : lookupKey st.cmds nm with
  | some existing => rw [h1] at h; cases h
  | none =>
      rw [h1] at h
      have h' : insertCommandFlags (CmdDefn.toCommand nm d)
          { st with cmds := st.cmds ++ [(nm, CmdDefn.toCommand nm d)] }
          (commandTokens nm (CmdDefn.toCommand nm d)) = .ok st' := h
      obtain ⟨hio, hic, hdj, hoo, hcc⟩ := hi
      exact insertCommandFlags_inv _ _ _ _ h'
        ⟨hio, hic, hdj, hoo, keysDistinct_append_one _ _ _ hcc h1⟩

theorem registerCommands_inv :
    ∀ (cmds : List (String × Option SharedDef)) (st st' : RegState),
    registerCommands st cmds = .ok st' → regInvariant st → regInvariant st' := by
  intro cmds
  induction cmds with
  | nil =>
      intro st st' h hi
      have h' : Except.ok st = Except.ok st' := h
      cases h'
      exact hi
  | cons p rest ih =>
      intro st st' h hi
      obtain ⟨k, d⟩ := p
      cases d with
      | none =>
          rw [registerCommands_cons_none] at h
          exact ih st st' h hi
      | some dd =>
          rw [registerCommands_cons_some] at h
          cases h1 : registerCommand st k (.sharedD dd) with
          | error e => rw [h1] at h; cases h
          | ok st1 =>
              rw [h1, exceptBind_ok] at h
              exact ih st1 st' h (registerCommand_inv st st1 k (.sharedD dd) h1 hi)

/-- After a successful construction, the registration tables are free of
collisions: every table has pairwise-distinct keys and no option flag token
is also a command token. -/
theorem buildParser_tables_collision_free (defn : IsolatedDef) (p : ParserInst)
    (h : buildParser defn = .ok p) : regInvariant p.reg := by
  rw [buildParser_eq] at h
  cases h1 : registerOptions { argDefs := defn.args } defn.options with
  | error e => rw [h1] at h; cases h
  | ok st1 =>
      rw [h1, exceptBind_ok] at h
      cases h2 : registerCommands st1 (mergeBuiltins defn.commands) with
      | error e => rw [h2] at h; cases h
      | ok st2 =>
          rw [h2, exceptBind_ok] at h
          have hinit : regInvariant { argDefs := defn.args } := by
            refine ⟨?_, ?_, ?_, ?_, ?_⟩ <;>
              first
                | exact List.Pairwise.nil
                | (intro k hk; cases hk)
          have hi2 := registerCommands_inv _ _ _ h2 (registerOptions_inv _ _ _ h1 hinit)
          injection h with h3
          rw [← h3]
          exact hi2

theorem insertOptionFlags_error_kind (o : RegOption) :
    ∀ (flags : List String) (st : RegState) (e : RegError),
    insertOptionFlags o st flags = .error e → isCollisionError e = true := by
  intro flags
  induction flags with
  | nil => intro st e h; rw [insertOptionFlags] at h; cases h
  | cons flag rest ih =>
      intro st e h
      rw [insertOptionFlags] at h
      cases h1 : lookupKey st.optLookup flag with
      | some dup =>
          rw [h1] at h
          injection h with h2
          rw [← h2]
          rfl
      | none =>
          rw [h1] at h
          cases h2 : lookupKey st.cmdLookup flag with
          | some conflict =>
              rw [h2] at h
              injection h with h3
              rw [← h3]
              rfl
          | none =>
              rw [h2] at h
              exact ih _ e h

theorem registerOption_error_kind (st : RegState) (nm : String) (od : OptionDef) (e : RegError)
    (h : registerOption st nm od = .error e) : isCollisionError e = true := by
  rw [registerOption] at h
  cases h1 : lookupKey st.options nm with
  | some existing =>
      rw [h1] at h
      injection h with h2
      rw [← h2]
      rfl
  | none =>
      rw [h1] at h
      by_cases hh : ({ toOptionDef := od, name := nm } : RegOption).hidden
      · rw [if_pos hh] at h
        cases h
      · rw [if_neg hh] at h
        exact insertOptionFlags_error_kind _ _ _ e h

theorem registerOptions_error_kind :
    ∀ (opts : List (String × OptionDef)) (st : RegState) (e : RegError),
    registerOptions st opts = .error e → isCollisionError e = true := by
  intro opts
  induction opts with
  | nil =>
      intro st e h
      have h' : (Except.ok st : Except RegError RegState) = Except.error e := h
      cases h'
  | cons p rest ih =>
      intro st e h
      rw [registerOptions, List.foldlM] at h
      cases h1 : registerOption st p.1 p.2 with
      | error e1 =>
          rw [h1] at h
          have h' : (Except.error e1 : Except RegError RegState) = Except.error e := h
          injection h' with h2
          rw [← h2]
          exact registerOption_error_kind st p.1 p.2 e1 h1
      | ok st1 =>
          rw [h1] at h
          exact ih st1 e h

theorem insertCommandFlags_error_kind (c : Command) :
    ∀ (flags : List String) (st : RegState) (e : RegError),
    insertCommandFlags c st flags = .error e → isCollisionError e = true := by
  intro flags
  induction flags with
  | nil => intro st e h; rw [insertCommandFlags] at h; cases h
  | cons flag rest ih =>
      intro st e h
      rw [insertCommandFlags] at h
      cases h1 : lookupKey st.cmdLookup flag with
      | some dup =>
          rw [h1] at h
          injection h with h2
          rw [← h2]
          rfl
      | none =>
          rw [h1] at h
          cases h2 : lookupKey st.optLookup flag with
          | some conflict =>
              rw [h2] at h
              injection h with h3
              rw [← h3]
              rfl
          | none =>
              rw [h2] at h
              exact ih _ e h

theorem registerCommand_error_kind (st : RegState) (nm : String) (d : CmdDefn) (e : RegError)
    (h : registerCommand st nm d = .error e) : isCollisionError e = true := by
  rw [registerCommand] at h
  cases h1 : lookupKey st.cmds nm with
  | some existing =>
      rw [h1] at h
      injection h with h2
      rw [← h2]
      rfl
  | none =>
      rw [h1] at h
      exact insertCommandFlags_error_kind _ _ _ e h

theorem registerCommands_error_kind :
    ∀ (cmds : List (String × Option SharedDef)) (st : RegState) (e : RegError),
    registerCommands st cmds = .error e → isCollisionError e = true := by
  intro cmds
  induction cmds with
  | nil =>
      intro st e h
      have h' : (Except.ok st : Except RegError RegState) = Except.error e := h
      cases h'
  | cons p rest ih =>
      intro st e h
      obtain ⟨k, d⟩ := p
      cases d with
      | none =>
          rw [registerCommands_cons_none] at h
          exact ih st e h
      | some dd =>
          rw [registerCommands_cons_some] at h
          cases h1 : registerCommand st k (.sharedD dd) with
          | error e1 =>
              rw [h1, exceptBind_error] at h
              injection h with h2
              rw [← h2]
              exact registerCommand_error_kind st k (.sharedD dd) e1 h1
          | ok st1 =>
              rw [h1, exceptBind_ok] at h
              exact ih st1 e h

/-- Every error raisable by the constructor is one of the documented
collision kinds. -/
theorem buildParser_error_kind (defn : IsolatedDef) (e : RegError)
    (h : buildParser defn = .error e) : isCollisionError e = true := by
  rw [buildParser_eq] at h
  cases h1 : registerOptions { argDefs := defn.args } defn.options with
  | error e1 =>
      rw [h1, exceptBind_error] at h
      injection h with h2
      rw [← h2]
      exact registerOptions_error_kind _ _ e1 h1
  | ok st1 =>
      rw [h1, exceptBind_ok] at h
      cases h2 : registerCommands st1 (mergeBuiltins defn.commands) with
      | error e2 =>
          rw [h2, exceptBind_error] at h
          injection h with h3
          rw [← h3]
          exact registerCommands_error_kind _ _ e2 h2
      | ok st2 =>
          rw [h2, exceptBind_ok] at h
          cases h

/-- Every child parser name is also a registered command name (holds for
constructed parsers and is preserved by `nest`; it makes the
duplicate-parser error unreachable). -/
def parsersSubCmds (p : ParserInst) : Prop :=
  ∀ (k : String) (v : ParserInst), lookupKey p.parsers k = some v →
    ∃ c, lookupKey p.reg.cmds k = some c

/-- `nest` equation: register the command, then the parser. -/
theorem nest_eq (p : ParserInst) (child : ParserInst) :
    nest p child =
      Except.bind (registerCommand p.reg child.defn.name (.isolatedD child.defn))
        (fun st =>
          match lookupKey p.parsers child.defn.name with
          | some existing => .error (.duplicateParser child.defn.name existing.defn.name)
          | none => .ok (.mk p.defn st (p.parsers ++ [(child.defn.name, child)]))) := rfl

/-- Every error raisable by `nest` on a parser whose child names are all
registered command names is one of the documented collision kinds. -/
theorem nest_error_kind (p : ParserInst) (child : ParserInst) (e : RegError)
    (hsub : parsersSubCmds p) (h : nest p child = .error e) : isCollisionError e = true := by
  rw [nest_eq] at h
  cases h1 : registerCommand p.reg child.defn.name (.isolatedD child.defn) with
  | error e1 =>
      rw [h1, exceptBind_error] at h
      injection h with h2
      rw [← h2]
      exact registerCommand_error_kind _ _ _ e1 h1
  | ok st1 =>
      rw [h1, exceptBind_ok] at h
      cases h2 : lookupKey p.parsers child.defn.name with
      | none => rw [h2] at h; cases h
      | some existing =>
          exfalso
          obtain ⟨c, hc⟩ := hsub child.defn.name existing h2
          rw [registerCommand] at h1
          rw [hc] at h1
          cases h1

/-- `nest` preserves the registration invariant: its resulting tables are
produced by a `registerCommand` on the parent's tables. -/
theorem nest_inv (p child p' : ParserInst) (h : nest p child = .ok p')
    (hi : regInvariant p.reg) : regInvariant p'.reg := by
  rw [nest_eq] at h
  cases h1 : registerCommand p.reg child.defn.name (.isolatedD child.defn) with
  | error e1 => rw [h1, exceptBind_error] at h; cases h
  | ok st1 =>
      rw [h1, exceptBind_ok] at h
      cases h2 : lookupKey p.parsers child.defn.name with
      | some existing => rw [h2] at h; cases h
      | none =>
          rw [h2] at h
          have h3 : Except.ok (ParserInst.mk p.defn st1
              (p.parsers ++ [(child.defn.name, child)])) = Except.ok p' := h
          cases h3
          exact registerCommand_inv p.reg st1 child.defn.name _ h1 hi

/-! Fixtures for C5: one schema per collision case. -/

def c5DupNameDefn : IsolatedDef :=
  { name := "c5a", handler := 1,
    options := [("a", { parse := STRING }), ("a", { parse := STRING })] }

def fOptA : OptionDef := { parse := STRING, short := ["f"] }

def fOptB : OptionDef := { parse := STRING, short := ["f"] }

def c5ShortDefn : IsolatedDef :=
  { name := "c5b", handler := 1, options := [("alpha", fOptA), ("beta", fOptB)] }

def c5NegDefn : IsolatedDef :=
  { name := "c5c", handler := 1,
    options := [("x", { parse := STRING }), ("no-x", { parse := STRING })] }

def c5TokDefn : IsolatedDef :=
  { name := "c5d", handler := 1,
    commands := [("a", some (.mk 5 ["x"] [] false none)),
                 ("b", some (.mk 6 ["x"] [] false none))] }

def c5ConflictDefn : IsolatedDef :=
  { name := "c5e", handler := 1, options := [("runx", { parse := STRING })],
    commands := [("runx", some (.mk 5 [] [] true none))] }

def c5RootDefn : IsolatedDef :=
  { name := "c5r", handler := 1, commands := [("dup5", some (.mk 7 [] [] false none))] }

def c5ChildDefn : IsolatedDef := { name := "dup5", handler := 8 }

def c5Root : ParserInst := getParser (buildParser c5RootDefn)

def c5Child : ParserInst := getParser (buildParser c5ChildDefn)

/-- C5: construction (and `nest`) raises a registration error naming the
colliding definition — before any scan exists — in each collision case:
duplicate option name, duplicate option flag token (here via two short
flags `f`), duplicate flag via the auto-generated negated form, duplicate
command name (via `nest`), duplicate command token (via aliases), and an
option flag colliding with a command token. Conversely these are the only
error kinds the constructor and `nest` can raise (the duplicate-parser
error is unreachable when child names are registered commands), and a
successful construction leaves all tables duplicate-free and the two
lookup tables disjoint. -/
theorem c5_registration_conflicts :
    buildParser c5DupNameDefn = .error (.duplicateOption "a" "a")
    ∧ buildParser c5ShortDefn = .error (.duplicateOption "-f" "alpha")
    ∧ buildParser c5NegDefn = .error (.duplicateOption "--no-x" "x")
    ∧ nest c5Root c5Child = .error (.duplicateCommand "dup5" "dup5")
    ∧ buildParser c5TokDefn = .error (.duplicateCommand "x" "a")
    ∧ buildParser c5ConflictDefn = .error (.conflictingCommand "--runx" "runx")
    ∧ (∀ (defn : IsolatedDef) (e : RegError),
        buildParser defn = .error e → isCollisionError e = true)
    ∧ (∀ (p child : ParserInst) (e : RegError),
        parsersSubCmds p → nest p child = .error e → isCollisionError e = true)
    ∧ (∀ (defn : IsolatedDef) (p : ParserInst),
        buildParser defn = .ok p → regInvariant p.reg) :=
  ⟨rfl, rfl, rfl, rfl, rfl, rfl,
   buildParser_error_kind,
   fun p child e hsub h => nest_error_kind p child e hsub h,
   buildParser_tables_collision_free⟩

/-- C5 witness: the quantified clauses of `c5_registration_conflicts`
applied at concrete inputs — the short-flag collision error is a collision
kind, the nest duplicate-command error is a collision kind, and the §8
root's tables are collision-free. -/
theorem c5_registration_conflicts_witness :
    isCollisionError (RegError.duplicateOption "-f" "alpha") = true
    ∧ isCollisionError (RegError.duplicateCommand "dup5" "dup5") = true
    ∧ regInvariant (getParser (buildParser cliDefn)).reg := by
  have hsub : parsersSubCmds c5Root := by
    intro k v hkv
    rw [show lookupKey c5Root.parsers k = none from rfl] at hkv
    cases hkv
  exact ⟨c5_registration_conflicts.2.2.2.2.2.2.1 c5ShortDefn _ rfl,
    c5_registration_conflicts.2.2.2.2.2.2.2.1 c5Root c5Child _ hsub rfl,
    c5_registration_conflicts.2.2.2.2.2.2.2.2 cliDefn _ rfl⟩

/-! ## C1: the default/override property, amended -/

/-- C1 amended: for a parser with a registered option named `n`:
(a) if no token of the input resolves to `n`, `config()[n]` is the declared
default (and `options()` has no `n` entry);
(b) if no isolated command is matched — equivalently, since a command can
only be matched at the input's first token, the first token does not resolve
to an isolated command — and exactly one token resolves to `n`, a
non-negated flag immediately followed by a non-flag value token `V`, then
`config()[n]` is the converter applied to `V`;
(c) under the same no-isolated-match condition, if the single token
resolving to `n` is a negated flag, `config()[n]` is the converter's
absent-input result.
Clauses (b) and (c) also assume the option-flag and command-token tables
are disjoint, which holds of every constructed parser
(`buildParser_tables_collision_free`, `nest_inv`); in particular both
clauses cover scans that match a shared command. -/
theorem c1_default_merge (P : ParserInst) (n : String) :
    (∀ (argv : List String) (res : ScanResult),
      parse P argv = .ok res →
      (∀ t ∈ argv, notFlagOf P.reg n t) →
      lookupKey res.options n = none
      ∧ (∀ o : RegOption, lookupKey P.reg.options n = some o →
          lookupKey res.config n = some o.dflt))
    ∧ (∀ (pre post : List String) (f v : String) (o : RegOption) (res : ScanResult),
      parse P (pre ++ f :: v :: post) = .ok res →
      tablesDisjoint P.reg →
      (∀ c : Command,
        lookupKey P.reg.cmdLookup (((pre ++ f :: v :: post).head?).getD "") = some c →
        c.ctype = .shared) →
      lookupKey P.reg.optLookup f = some o → o.name = n →
      isFlag f = true → isNegatedFlag f = false → isFlag v = false →
      (∀ t ∈ pre, notFlagOf P.reg n t) → (∀ t ∈ post, notFlagOf P.reg n t) →
      lookupKey res.options n = some (o.parse (some v))
      ∧ lookupKey res.config n = some (o.parse (some v)))
    ∧ (∀ (pre post : List String) (f : String) (o : RegOption) (res : ScanResult),
      parse P (pre ++ f :: post) = .ok res →
      tablesDisjoint P.reg →
      (∀ c : Command,
        lookupKey P.reg.cmdLookup (((pre ++ f :: post).head?).getD "") = some c →
        c.ctype = .shared) →
      lookupKey P.reg.optLookup f = some o → o.name = n →
      isFlag f = true → isNegatedFlag f = true →
      (∀ t ∈ pre, notFlagOf P.reg n t) → (∀ t ∈ post, notFlagOf P.reg n t) →
      lookupKey res.options n = some (o.parse none)
      ∧ lookupKey res.config n = some (o.parse none)) := by
  refine ⟨?_, ?_, ?_⟩
  · intro argv res h hts
    obtain ⟨acc, hpl, hres⟩ := parse_destruct P argv res h
    have hopts : lookupKey acc.options n = lookupKey ([] : List (String × Option Value)) n :=
      parseLoop_options_preserved P.reg P.defn.name n argv false .COMMAND [] [] none acc hpl hts
    have hnone : lookupKey acc.options n = none := by
      rw [hopts, lookupKey]
    constructor
    · rw [hres]
      exact hnone
    · intro o hoo
      rw [hres]
      show lookupKey (overrideAll (createDefaultConfig P.reg) acc.options) n = some o.dflt
      rw [lookupKey_overrideAll_of_not_mem acc.options (createDefaultConfig P.reg) n
        (lookupKey_none_not_mem acc.options n hnone)]
      rw [createDefaultConfig, lookupKey_map_value P.reg.options (fun x => x.dflt) n, hoo]
      rfl
  · intro pre post f v o res h hdisj hH ho hn hf hneg hv hpre hpost
    obtain ⟨acc, hpl, hres⟩ := parse_destruct P (pre ++ f :: v :: post) res h
    have hkd : keysDistinct acc.options := by
      obtain ⟨t, ts, hts⟩ : ∃ t ts, pre ++ f :: v :: post = t :: ts := by
        cases pre <;> exact ⟨_, _, rfl⟩
      rw [hts] at hpl
      exact parseLoop_keysDistinct P.reg P.defn.name (t :: ts) false .COMMAND [] [] none acc
        hpl (by rw [keysDistinct]; exact List.Pairwise.nil)
    have main : lookupKey acc.options n = some (o.parse (some v)) := by
      cases pre with
      | nil =>
          rw [List.nil_append] at hpl
          have hfl : lookupKey P.reg.cmdLookup f = none := hdisj f (by rw [ho]; rfl)
          rw [parseLoop_COMMAND_miss P.reg P.defn.name f (v :: post) [] [] none hfl] at hpl
          exact parseLoop_flag_value_core P.reg P.defn.name n f v post [] [] none acc o
            ho hn hf hneg hv hpost hpl
      | cons p0 pre' =>
          rw [List.cons_append] at hpl
          cases hl : lookupKey P.reg.cmdLookup p0 with
          | none =>
              rw [parseLoop_COMMAND_miss P.reg P.defn.name p0 (pre' ++ f :: v :: post)
                [] [] none hl, ← List.cons_append] at hpl
              obtain ⟨args2, opts2, h2, hl2, hd2⟩ := parseLoop_walk P.reg P.defn.name n
                (p0 :: pre').length (p0 :: pre') (f :: v :: post) [] [] none acc le_rfl hpre
                (show isFlag (((f :: v :: post).head?).getD "") = true from hf) hpl
              exact parseLoop_flag_value_core P.reg P.defn.name n f v post args2 opts2 none
                acc o ho hn hf hneg hv hpost h2
          | some c =>
              have hcs : c.ctype = CmdType.shared := hH c hl
              rw [parseLoop_COMMAND_hit P.reg P.defn.name p0 (pre' ++ f :: v :: post)
                [] [] c hl, if_pos hcs] at hpl
              cases pre' with
              | nil =>
                  rw [List.nil_append] at hpl
                  have hfl : lookupKey P.reg.cmdLookup f = none := hdisj f (by rw [ho]; rfl)
                  rw [parseLoop_SHARED_miss P.reg P.defn.name f (v :: post) [] [] _ hfl] at hpl
                  exact parseLoop_flag_value_core P.reg P.defn.name n f v post [] [] _ acc o
                    ho hn hf hneg hv hpost hpl
              | cons q pre'' =>
                  rw [List.cons_append] at hpl
                  cases hql : lookupKey P.reg.cmdLookup q with
                  | some c2 =>
                      exact (parseLoop_SHARED_hit P.reg P.defn.name q
                        (pre'' ++ f :: v :: post) [] [] _ c2 hql acc hpl).elim
                  | none =>
                      rw [parseLoop_SHARED_miss P.reg P.defn.name q
                        (pre'' ++ f :: v :: post) [] [] _ hql, ← List.cons_append] at hpl
                      obtain ⟨args2, opts2, h2, hl2, hd2⟩ := parseLoop_walk P.reg P.defn.name n
                        (q :: pre'').length (q :: pre'') (f :: v :: post) [] [] _ acc le_rfl
                        (fun t ht => hpre t (List.mem_cons_of_mem _ ht))
                        (show isFlag (((f :: v :: post).head?).getD "") = true from hf) hpl
                      exact parseLoop_flag_value_core P.reg P.defn.name n f v post args2 opts2
                        _ acc o ho hn hf hneg hv hpost h2
    refine ⟨by rw [hres]; exact main, ?_⟩
    rw [hres]
    show lookupKey (overrideAll (createDefaultConfig P.reg) acc.options) n
      = some (o.parse (some v))
    exact lookupKey_overrideAll_of_mem acc.options _ n _ hkd main
  · intro pre post f o res h hdisj hH ho hn hf hneg hpre hpost
    obtain ⟨acc, hpl, hres⟩ := parse_destruct P (pre ++ f :: post) res h
    have hkd : keysDistinct acc.options := by
      obtain ⟨t, ts, hts⟩ : ∃ t ts, pre ++ f :: post = t :: ts := by
        cases pre <;> exact ⟨_, _, rfl⟩
      rw [hts] at hpl
      exact parseLoop_keysDistinct P.reg P.defn.name (t :: ts) false .COMMAND [] [] none acc
        hpl (by rw [keysDistinct]; exact List.Pairwise.nil)
    have main : lookupKey acc.options n = some (o.parse none) := by
      cases pre with
      | nil =>
          rw [List.nil_append] at hpl
          have hfl : lookupKey P.reg.cmdLookup f = none := hdisj f (by rw [ho]; rfl)
          rw [parseLoop_COMMAND_miss P.reg P.defn.name f post [] [] none hfl] at hpl
          exact parseLoop_negated_core P.reg P.defn.name n f post [] [] none acc o
            ho hn hf hneg hpost hpl
      | cons p0 pre' =>
          rw [List.cons_append] at hpl
          cases hl : lookupKey P.reg.cmdLookup p0 with
          | none =>
              rw [parseLoop_COMMAND_miss P.reg P.defn.name p0 (pre' ++ f :: post)
                [] [] none hl, ← List.cons_append] at hpl
              obtain ⟨args2, opts2, h2, hl2, hd2⟩ := parseLoop_walk P.reg P.defn.name n
                (p0 :: pre').length (p0 :: pre') (f :: post) [] [] none acc le_rfl hpre
                (show isFlag (((f :: post).head?).getD "") = true from hf) hpl
              exact parseLoop_negated_core P.reg P.defn.name n f post args2 opts2 none
                acc o ho hn hf hneg hpost h2
          | some c =>
              have hcs : c.ctype = CmdType.shared := hH c hl
              rw [parseLoop_COMMAND_hit P.reg P.defn.name p0 (pre' ++ f :: post)
                [] [] c hl, if_pos hcs] at hpl
              cases pre' with
              | nil =>
                  rw [List.nil_append] at hpl
                  have hfl : lookupKey P.reg.cmdLookup f = none := hdisj f (by rw [ho]; rfl)
                  rw [parseLoop_SHARED_miss P.reg P.defn.name f post [] [] _ hfl] at hpl
                  exact parseLoop_negated_core P.reg P.defn.name n f post [] [] _ acc o
                    ho hn hf hneg hpost hpl
              | cons q pre'' =>
                  rw [List.cons_append] at hpl
                  cases hql : lookupKey P.reg.cmdLookup q with
                  | some c2 =>
                      exact (parseLoop_SHARED_hit P.reg P.defn.name q
                        (pre'' ++ f :: post) [] [] _ c2 hql acc hpl).elim
                  | none =>
                      rw [parseLoop_SHARED_miss P.reg P.defn.name q
                        (pre'' ++ f :: post) [] [] _ hql, ← List.cons_append] at hpl
                      obtain ⟨args2, opts2, h2, hl2, hd2⟩ := parseLoop_walk P.reg P.defn.name n
                        (q :: pre'').length (q :: pre'') (f :: post) [] [] _ acc le_rfl
                        (fun t ht => hpre t (List.mem_cons_of_mem _ ht))
                        (show isFlag (((f :: post).head?).getD "") = true from hf) hpl
                      exact parseLoop_negated_core P.reg P.defn.name n f post args2 opts2
                        _ acc o ho hn hf hneg hpost h2
    refine ⟨by rw [hres]; exact main, ?_⟩
    rw [hres]
    show lookupKey (overrideAll (createDefaultConfig P.reg) acc.options) n
      = some (o.parse none)
    exact lookupKey_overrideAll_of_mem acc.options _ n _ hkd main

/-- C1 witness: `c1_default_merge` applied at concrete inputs — clause (a)
at `["plain"]` (default survives), clause (b) at `["--foo", "val"]`
(converted value wins) and at `["sub", "--foo", "val"]` (the same through a
matched shared command), clause (c) at `["--no-verbose"]` (absent-input
result wins). -/
theorem c1_default_merge_witness :
    (parse cliParser ["plain"]).map (fun r => lookupKey r.options "foo") = .ok none
    ∧ (parse cliParser ["plain"]).map (fun r => lookupKey r.config "foo")
        = .ok (some (some (.vStr "bar")))
    ∧ (parse cliParser ["--foo", "val"]).map (fun r => lookupKey r.config "foo")
        = .ok (some (STRING (some "val")))
    ∧ (parse cliParser ["sub", "--foo", "val"]).map (fun r => lookupKey r.config "foo")
        = .ok (some (STRING (some "val")))
    ∧ (parse c1Parser ["--no-verbose"]).map (fun r => lookupKey r.config "verbose")
        = .ok (some (BOOLEAN none)) := by
  have hdisjCli : tablesDisjoint cliParser.reg :=
    (nest_inv (getParser (buildParser cliDefn)) (getParser (buildParser echoDefn)) cliParser
      rfl (buildParser_tables_collision_free cliDefn (getParser (buildParser cliDefn))
        rfl)).2.2.1
  have hdisjC1 : tablesDisjoint c1Parser.reg :=
    (buildParser_tables_collision_free c1Defn c1Parser rfl).2.2.1
  have hno : ∀ t ∈ ["plain"], notFlagOf cliParser.reg "foo" t := by
    intro t ht
    have ht' : t = "plain" := by simpa using ht
    subst ht'
    intro o hoo
    rw [show lookupKey cliParser.reg.optLookup "plain" = none from rfl] at hoo
    cases hoo
  have ha := (c1_default_merge cliParser "foo").1 ["plain"]
    (createParserResult cliParser.reg [.raw "plain"] [] none) rfl hno
  have hb := ((c1_default_merge cliParser "foo").2.1 [] [] "--foo" "val"
    { toOptionDef := fooOpt, name := "foo" }
    (createParserResult cliParser.reg [] [("foo", STRING (some "val"))] none)
    rfl hdisjCli
    (by intro c hc
        have hc' : lookupKey cliParser.reg.cmdLookup "--foo" = some c := hc
        rw [show lookupKey cliParser.reg.cmdLookup "--foo" = (none : Option Command)
          from rfl] at hc'
        exact Option.noConfusion hc')
    rfl rfl rfl rfl rfl
    (by intro t ht; cases ht) (by intro t ht; cases ht))
  have hb2 := ((c1_default_merge cliParser "foo").2.1 ["sub"] [] "--foo" "val"
    { toOptionDef := fooOpt, name := "foo" }
    (createParserResult cliParser.reg [] [("foo", STRING (some "val"))]
      (some ("sub", ["--foo", "val"])))
    rfl hdisjCli
    (by intro c hc
        have hc' : lookupKey cliParser.reg.cmdLookup "sub" = some c := hc
        have h2 : (lookupKey cliParser.reg.cmdLookup "sub").map Command.ctype
            = some CmdType.shared := rfl
        rw [hc'] at h2
        have h3 : some c.ctype = some CmdType.shared := h2
        exact Option.some.inj h3)
    rfl rfl rfl rfl rfl
    (by intro t ht o hoo
        have ht' : t = "sub" := by simpa using ht
        subst ht'
        rw [show lookupKey cliParser.reg.optLookup "sub" = (none : Option RegOption)
          from rfl] at hoo
        exact Option.noConfusion hoo)
    (by intro t ht; cases ht))
  have hc := ((c1_default_merge c1Parser "verbose").2.2 [] [] "--no-verbose"
    { toOptionDef := verbOpt, name := "verbose" }
    (createParserResult c1Parser.reg [] [("verbose", BOOLEAN none)] none)
    rfl hdisjC1
    (by intro c hcc
        have hc' : lookupKey c1Parser.reg.cmdLookup "--no-verbose" = some c := hcc
        rw [show lookupKey c1Parser.reg.cmdLookup "--no-verbose" = (none : Option Command)
          from rfl] at hc'
        exact Option.noConfusion hc')
    rfl rfl rfl rfl
    (by intro t ht; cases ht) (by intro t ht; cases ht))
  refine ⟨?_, ?_, ?_, ?_, ?_⟩
  · rw [show parse cliParser ["plain"]
        = .ok (createParserResult cliParser.reg [.raw "plain"] [] none) from rfl]
    simp only [Except.map]
    rw [ha.1]
  · rw [show parse cliParser ["plain"]
        = .ok (createParserResult cliParser.reg [.raw "plain"] [] none) from rfl]
    simp only [Except.map]
    rw [ha.2 { toOptionDef := fooOpt, name := "foo" } rfl]
    rfl
  · rw [show parse cliParser ["--foo", "val"]
        = .ok (createParserResult cliParser.reg []
            [("foo", STRING (some "val"))] none) from rfl]
    simp only [Except.map]
    rw [hb.2]
    rfl
  · rw [show parse cliParser ["sub", "--foo", "val"]
        = .ok (createParserResult cliParser.reg [] [("foo", STRING (some "val"))]
            (some ("sub", ["--foo", "val"]))) from rfl]
    simp only [Except.map]
    rw [hb2.2]
    rfl
  · rw [show parse c1Parser ["--no-verbose"]
        = .ok (createParserResult c1Parser.reg []
            [("verbose", BOOLEAN none)] none) from rfl]
    simp only [Except.map]
    rw [hc.2]
    rfl

end Partkit
